import Mathlib

/-!
Shallow embedding of the `file-vault` repository (Django app `files`):
`src/files/models.py`, `src/files/views.py`, `src/files/ai_service.py`.

External collaborators (the Anthropic client, the SentenceTransformer
embedding model, sklearn's `cosine_similarity`, and the per-format text
extractors built on PyPDF2/docx/PIL) are modelled as parameters of an
`AIEnv` record, per the spec's §6 which treats them as opaque interfaces.
Floats are modelled as rationals; byte strings as `List Nat`; SHA-256 is
modelled as an injective function of the byte stream (identity), which is
the collision-freedom abstraction the dedup design assumes.
-/

namespace FileVault

/-! # Definitions: the embedded data model and operations -/

/-- `AIFileProcessor.CATEGORIES` from `ai_service.py`. -/
def CATEGORIES : List String :=
  ["Work Documents",
   "Personal Documents",
   "Financial Documents",
   "Legal Documents",
   "Medical Records",
   "Receipts & Invoices",
   "Contracts & Agreements",
   "Educational Materials",
   "Creative Content",
   "Technical Documentation",
   "Travel Documents",
   "Tax Documents",
   "Property Documents",
   "Insurance Documents",
   "Other"]

/-- The JSON object parsed from a Claude analysis response: every field the
prompt asks for may be missing (`Option`), exactly as `dict.get` treats it in
`_validate_metadata`. -/
structure RawMeta where
  category : Option String
  subcategory : Option String
  summary : Option String
  tags : Option (List String)
  entities : Option (List (String × List String))
  key_info : Option (List (String × String))
  confidence_score : Option ℚ
deriving DecidableEq

/-- The metadata dict returned by `AIFileProcessor.process_file` /
`_validate_metadata` / `_get_default_metadata`. -/
structure MetaDict where
  category : String
  subcategory : String
  summary : String
  tags : List String
  entities : List (String × List String)
  key_info : List (String × String)
  confidence_score : ℚ
  embedding : Option (List ℚ)
deriving DecidableEq

/-- Outcome of the Claude call in `_analyze_with_claude`: either a parsed
JSON object, or any failure (upstream error, non-JSON content, coercion
error) with its exception message. -/
inductive ClaudeOutcome where
  | ok (resp : RawMeta)
  | err (msg : String)
deriving DecidableEq

/-- The external collaborators of `AIFileProcessor`, as one environment:
`embedding_model` is the SentenceTransformer (absent when loading failed;
its encoder may itself fail, returning `none`), `claude` the content
analysis call, `extract` the per-format content extractors dispatched by
`_extract_content` (on bytes and declared type; `none`/empty both mean
"nothing usable"), and `cosine` sklearn's `cosine_similarity`. -/
structure AIEnv where
  embedding_model : Option (String → Option (List ℚ))
  claude : String → String → String → ClaudeOutcome
  extract : List Nat → String → Option String
  cosine : List ℚ → List ℚ → ℚ

/-- `AIFileProcessor.compute_embedding`. -/
def compute_embedding (env : AIEnv) (text : String) : Option (List ℚ) :=
  match env.embedding_model with
  | none => none
  | some enc => if text = "" then none else enc text

/-- `AIFileProcessor._validate_metadata`. -/
def validate_metadata (m : RawMeta) : MetaDict :=
  let v : MetaDict :=
    { category := m.category.getD "Other"
      subcategory := m.subcategory.getD ""
      summary := (m.summary.getD "").take 500
      tags := (m.tags.getD []).take 10
      entities := m.entities.getD []
      key_info := m.key_info.getD []
      confidence_score := m.confidence_score.getD (1/2)
      embedding := none }
  if v.category ∈ CATEGORIES then v else { v with category := "Other" }

/-- `AIFileProcessor._get_default_metadata`. -/
def get_default_metadata (reason : String) : MetaDict :=
  { category := "Other"
    subcategory := ""
    summary := if reason = "" then "File processed without AI analysis" else reason
    tags := []
    entities := []
    key_info := []
    confidence_score := 0
    embedding := none }

/-- `AIFileProcessor._analyze_with_claude`: a parsed response is validated,
any failure is converted to the default record. -/
def analyze_with_claude (outcome : ClaudeOutcome) : MetaDict :=
  match outcome with
  | .ok resp => validate_metadata resp
  | .err msg => get_default_metadata ("Analysis failed: " ++ msg)

/-- `AIFileProcessor.process_file`: extract content, analyze, and attach an
embedding of the summary when one was produced. -/
def process_file (env : AIEnv) (content : List Nat) (file_type : String)
    (original_filename : String) : MetaDict :=
  match env.extract content file_type with
  | none => get_default_metadata "Unable to extract content from file"
  | some text =>
      if text = "" then get_default_metadata "Unable to extract content from file"
      else
        let metadata := analyze_with_claude (env.claude text original_filename file_type)
        if metadata.summary ≠ "" then
          { metadata with embedding := compute_embedding env metadata.summary }
        else metadata

/-- An entry of the `files_data` list handed to `semantic_search` by
`FileViewSet.smart_search` (a Python dict; `embedding` is what
`f.get('embedding')` yields — `none` when the key is absent). -/
structure Candidate where
  file_id : String
  filename : String
  category : String
  summary : String
  tags : List String
  embedding : Option (List ℚ)
deriving DecidableEq

/-- One ranked result of `AIFileProcessor.semantic_search`. -/
structure SearchResult where
  file_id : String
  relevance_score : ℚ
  reason : String
deriving DecidableEq

/-- Rendering of Python's `f"{score:.2f}"` over the rational model of the
float score: round to two decimals and print. -/
def fmtScore (q : ℚ) : String :=
  let n : ℤ := round (q * 100)
  let sign := if n < 0 then "-" else ""
  let m := n.natAbs
  sign ++ toString (m / 100) ++ "." ++ (if m % 100 < 10 then "0" else "") ++ toString (m % 100)

/-- The descending-score comparison `semantic_search` sorts by. -/
def scoreGE (a b : SearchResult) : Prop := b.relevance_score ≤ a.relevance_score

instance : DecidableRel scoreGE := fun a b =>
  inferInstanceAs (Decidable (b.relevance_score ≤ a.relevance_score))

instance : IsTotal SearchResult scoreGE := ⟨fun a b => le_total b.relevance_score a.relevance_score⟩

instance : IsTrans SearchResult scoreGE := ⟨fun _ _ _ h h' => le_trans h' h⟩

/-- `AIFileProcessor.semantic_search`. Python's stable `list.sort` with
`reverse=True` is modelled by `List.insertionSort` with the descending
comparison, which produces the same list (both are the unique stable
descending-by-score ordering of the input). -/
def semantic_search (env : AIEnv) (query : String)
    (user_files_metadata : List Candidate) : List SearchResult :=
  if user_files_metadata = [] ∨ env.embedding_model.isNone then []
  else
    match compute_embedding env query with
    | none => []
    | some query_embedding =>
        let files_with_embeddings := user_files_metadata.filter (fun f => f.embedding.isSome)
        if files_with_embeddings = [] then []
        else
          let results := files_with_embeddings.filterMap (fun f =>
            let score := env.cosine query_embedding (f.embedding.getD [])
            if 3/10 ≤ score then
              some { file_id := f.file_id, relevance_score := score,
                     reason := "Semantic similarity: " ++ fmtScore score }
            else none)
          (results.insertionSort scoreGE).take 10

/-! ## `models.py` -/

/-- `File.calculate_file_hash`: SHA-256 of the byte stream, modelled as an
injective function of the content (the identity), the collision-freedom
abstraction under which content-addressed dedup is specified. -/
def calculate_file_hash (content : List Nat) : List Nat := content

/-- A row of the `uploaded_files` table (`File` in `models.py`). `path` is
the storage path of the `file` field (canonical uploads get a fresh path,
references share the canonical's). -/
structure StoredFile where
  id : Nat
  path : Nat
  original_filename : String
  file_type : String
  size : Nat
  user_id : String
  file_hash : List Nat
  is_reference : Bool
  original_file : Option Nat
  reference_count : Nat
  ai_processed : Bool
  ai_processing_failed : Bool
deriving DecidableEq

/-- A row of the `file_metadata` table (`FileMetadata` in `models.py`),
keyed 1:1 by the file id. -/
structure FileMetadata where
  file : Nat
  summary : String
  category : String
  subcategory : String
  tags : List String
  entities : List (String × List String)
  key_info : List (String × String)
  embedding : Option (List ℚ)
  confidence_score : ℚ
deriving DecidableEq

/-- A row of the `storage_stats` table (`StorageStats` in `models.py`). -/
structure StorageStats where
  user_id : String
  original_storage_used : Nat
  total_storage_used : Nat
  file_count : Nat
deriving DecidableEq

/-- `StorageStats.storage_savings`. -/
def StorageStats.storage_savings (s : StorageStats) : ℤ :=
  (s.original_storage_used : ℤ) - s.total_storage_used

/-- The value `StorageStats.update_stats` recomputes from the `File` table
for one user: sum of sizes over all that user's files, over only the
non-reference ones, and the file count. -/
def computeStats (uid : String) (files : List StoredFile) : StorageStats :=
  let fs := files.filter (fun f => decide (f.user_id = uid))
  { user_id := uid
    original_storage_used := (fs.map (fun f => f.size)).sum
    total_storage_used := ((fs.filter (fun f => f.is_reference = false)).map (fun f => f.size)).sum
    file_count := fs.length }

/-! ## `views.py` (`FileViewSet`) -/

/-- The persistent state the file endpoints read and write: the three
tables plus the set of physical blob paths on disk. `nextId` supplies the
fresh UUIDs for file ids and upload paths. -/
structure DB where
  files : List StoredFile
  metas : List FileMetadata
  stats : List StorageStats
  blobs : List Nat
  nextId : Nat
deriving DecidableEq

/-- The empty initial state. -/
def DB.empty : DB := ⟨[], [], [], [], 0⟩

/-- An upload request: raw bytes, original filename, declared content type. -/
structure Upload where
  content : List Nat
  name : String
  ctype : String
deriving DecidableEq

/-- `STORAGE_QUOTA_BYTES` with the default `STORAGE_QUOTA_MB = 10`. -/
def STORAGE_QUOTA_BYTES : Nat := 10 * 1024 * 1024

/-- `StorageStats.objects.get_or_create(user_id=uid)`: the existing row, or
a freshly inserted default row. -/
def getOrCreateStats (db : DB) (uid : String) : StorageStats × DB :=
  match db.stats.find? (fun s => decide (s.user_id = uid)) with
  | some r => (r, db)
  | none =>
      let r : StorageStats := ⟨uid, 0, 0, 0⟩
      (r, { db with stats := r :: db.stats })

/-- `get_or_create` followed by `update_stats()`: the user's row is set to
the full recount over the current `File` table (inserted if absent). -/
def updateStatsRow (db : DB) (uid : String) : DB :=
  let r := computeStats uid db.files
  if db.stats.any (fun s => decide (s.user_id = uid)) then
    { db with stats := db.stats.map (fun s => if s.user_id = uid then r else s) }
  else
    { db with stats := r :: db.stats }

/-- Outcome of `FileViewSet.create` (after the header/rate-limit guards,
which are out of the modelled core). -/
inductive CreateResult where
  | quotaExceeded
  | created (fileId : Nat)
deriving DecidableEq

/-- `FileViewSet.create`: hash the upload, look for the owner's canonical
file with that hash; found → create a reference, bump the target's
`reference_count`, copy its metadata verbatim when present; not found →
quota check, create a canonical file and its blob, recount stats, then run
the enrichment pipeline and persist its result (note: the persisted
`FileMetadata` row is built without the `embedding` key). -/
def fileCreate (env : AIEnv) (db : DB) (uid : String) (up : Upload) : DB × CreateResult :=
  let h := calculate_file_hash up.content
  let file_size := up.content.length
  match db.files.find? (fun f =>
      decide (f.file_hash = h ∧ f.user_id = uid ∧ f.is_reference = false)) with
  | some existing =>
      let newFile : StoredFile :=
        { id := db.nextId, path := existing.path, original_filename := up.name
          file_type := up.ctype, size := file_size, user_id := uid, file_hash := h
          is_reference := true, original_file := some existing.id, reference_count := 0
          ai_processed := false, ai_processing_failed := false }
      let files1 := newFile :: db.files
      let files2 := files1.map (fun f =>
        if f.id = existing.id then { f with reference_count := f.reference_count + 1 } else f)
      match db.metas.find? (fun m => decide (m.file = existing.id)) with
      | some om =>
          let newMeta : FileMetadata :=
            { file := db.nextId, summary := om.summary, category := om.category
              subcategory := om.subcategory, tags := om.tags, entities := om.entities
              key_info := om.key_info, embedding := none
              confidence_score := om.confidence_score }
          let files3 := files2.map (fun f =>
            if f.id = db.nextId then { f with ai_processed := true } else f)
          let db1 : DB :=
            { db with files := files3, metas := newMeta :: db.metas, nextId := db.nextId + 1 }
          (updateStatsRow db1 uid, .created db.nextId)
      | none =>
          let db1 : DB := { db with files := files2, nextId := db.nextId + 1 }
          (updateStatsRow db1 uid, .created db.nextId)
  | none =>
      let gc := getOrCreateStats db uid
      let db0 := gc.2
      if STORAGE_QUOTA_BYTES < gc.1.total_storage_used + file_size then
        (db0, .quotaExceeded)
      else
        let newFile : StoredFile :=
          { id := db.nextId, path := db.nextId, original_filename := up.name
            file_type := up.ctype, size := file_size, user_id := uid, file_hash := h
            is_reference := false, original_file := none, reference_count := 0
            ai_processed := false, ai_processing_failed := false }
        let db1 : DB :=
          { db0 with files := newFile :: db0.files, blobs := db.nextId :: db0.blobs,
                     nextId := db.nextId + 1 }
        let db2 := updateStatsRow db1 uid
        let md := process_file env up.content up.ctype up.name
        let newMeta : FileMetadata :=
          { file := db.nextId, summary := md.summary, category := md.category
            subcategory := md.subcategory, tags := md.tags, entities := md.entities
            key_info := md.key_info, embedding := none
            confidence_score := md.confidence_score }
        let files4 := db2.files.map (fun f =>
          if f.id = db.nextId then { f with ai_processed := true } else f)
        ({ db2 with files := files4, metas := newMeta :: db2.metas }, .created db.nextId)

/-- Outcome of `FileViewSet.destroy`. `deleted released` records whether a
physical blob was removed from disk. -/
inductive DestroyResult where
  | notFound
  | unauthorized
  | referencedError
  | deleted (released : Bool)
deriving DecidableEq

/-- `FileViewSet.destroy`: owner check; a reference decrements its target's
count (floored at 0) and is deleted; a canonical file with live references
is refused; otherwise its blob is removed from disk and the row deleted
(with the backing store cascading the delete to dependent rows). -/
def fileDestroy (db : DB) (uid : String) (fid : Nat) : DB × DestroyResult :=
  match db.files.find? (fun f => decide (f.id = fid)) with
  | none => (db, .notFound)
  | some inst =>
      if inst.user_id ≠ uid then (db, .unauthorized)
      else if inst.is_reference then
        let files1 : List StoredFile := match inst.original_file with
          | some oid => db.files.map (fun f =>
              if f.id = oid then { f with reference_count := f.reference_count - 1 } else f)
          | none => db.files
        let files2 := files1.filter (fun f =>
          decide (¬ (f.id = fid ∨ f.original_file = some fid)))
        let metas2 := db.metas.filter (fun m =>
          files2.any (fun f => decide (f.id = m.file)))
        let db1 : DB := { db with files := files2, metas := metas2 }
        (updateStatsRow db1 uid, .deleted false)
      else if 0 < inst.reference_count then (db, .referencedError)
      else
        let released := decide (inst.path ∈ db.blobs)
        let blobs2 := db.blobs.erase inst.path
        let files2 := db.files.filter (fun f =>
          decide (¬ (f.id = fid ∨ f.original_file = some fid)))
        let metas2 := db.metas.filter (fun m =>
          files2.any (fun f => decide (f.id = m.file)))
        let db1 : DB := { db with files := files2, metas := metas2, blobs := blobs2 }
        (updateStatsRow db1 uid, .deleted released)

/-- `FileViewSet.smart_search`: collect the user's AI-processed files that
have a metadata row into plain dicts (file id, filename, category, summary,
tags — and nothing else, so `get('embedding')` yields `None`), then run
`semantic_search` over them. Returns the ranked result list (the view then
re-serializes it; empty list ⟺ the "no relevant files" response). -/
def smart_search (env : AIEnv) (db : DB) (uid : String) (query : String) :
    List SearchResult :=
  let files_with_metadata := db.files.filter (fun f =>
    decide (f.user_id = uid ∧ f.ai_processed = true))
  if files_with_metadata = [] then []
  else
    let files_data := files_with_metadata.filterMap (fun f =>
      (db.metas.find? (fun m => decide (m.file = f.id))).map (fun m =>
        ({ file_id := toString f.id, filename := f.original_filename,
           category := m.category, summary := m.summary, tags := m.tags,
           embedding := none } : Candidate)))
    semantic_search env query files_data

/-! ## Claim C8: enrichment output bounds -/

/-- A parsed response carrying `confidence_score = 2`. -/
def rawOverconfident : RawMeta :=
  { category := some "Other", subcategory := none, summary := some "ok",
    tags := none, entities := none, key_info := none, confidence_score := some 2 }

/-- Environment whose analysis call parses to `rawOverconfident`. -/
def envOverconfident : AIEnv :=
  { embedding_model := none, claude := fun _ _ _ => .ok rawOverconfident,
    extract := fun _ _ => some "sample text", cosine := fun _ _ => 0 }

/-! ## Claim C1: the computed embedding is not the persisted one -/

/-- A fully well-formed parsed analysis response. -/
def rawGood : RawMeta :=
  { category := some "Work Documents", subcategory := some "Reports",
    summary := some "A useful summary.", tags := some ["report"],
    entities := none, key_info := none, confidence_score := some (9/10) }

/-- Environment where extraction, analysis and the embedding model all
succeed. -/
def envFull : AIEnv :=
  { embedding_model := some (fun _ => some [1, 2, 3]),
    claude := fun _ _ _ => .ok rawGood,
    extract := fun _ _ => some "hello world", cosine := fun _ _ => 1 }

/-! ## The reachable-state invariant -/

/-- The state invariant of the dedup/reference-counting store, maintained by
`fileCreate` and `fileDestroy` from the empty state. -/
structure Inv (db : DB) : Prop where
  idsNodup : (db.files.map (fun f => f.id)).Nodup
  idsLt : ∀ f ∈ db.files, f.id < db.nextId
  pathLt : ∀ f ∈ db.files, f.path < db.nextId
  canonUnique : ∀ f ∈ db.files, ∀ g ∈ db.files, f.user_id = g.user_id →
    f.file_hash = g.file_hash → f.is_reference = false → g.is_reference = false → f = g
  refTarget : ∀ f ∈ db.files, f.is_reference = true → ∃ c ∈ db.files,
    f.original_file = some c.id ∧ c.is_reference = false ∧ c.user_id = f.user_id ∧
    c.file_hash = f.file_hash
  canonNoTarget : ∀ f ∈ db.files, f.is_reference = false → f.original_file = none
  refCount : ∀ c ∈ db.files, c.is_reference = false → c.reference_count =
    (db.files.filter (fun f => decide (f.is_reference = true ∧
      f.original_file = some c.id))).length
  sizeEq : ∀ f ∈ db.files, f.size = f.file_hash.length
  blobIff : ∀ b, b ∈ db.blobs ↔ ∃ c ∈ db.files, c.is_reference = false ∧ c.path = b
  blobsNodup : db.blobs.Nodup
  canonPathInj : ∀ f ∈ db.files, ∀ g ∈ db.files, f.is_reference = false →
    g.is_reference = false → f.path = g.path → f = g
  metasEmbNone : ∀ m ∈ db.metas, m.embedding = none
  statsAcc : ∀ r ∈ db.stats, r = computeStats r.user_id db.files
  statsExists : ∀ f ∈ db.files, ∃ r ∈ db.stats, r.user_id = f.user_id

/-- The states reachable through the modelled endpoints from the empty
store. -/
inductive Reachable : DB → Prop where
  | init : Reachable DB.empty
  | create (env : AIEnv) (uid : String) (up : Upload) {db : DB} :
      Reachable db → Reachable (fileCreate env db uid up).1
  | destroy (uid : String) (fid : Nat) {db : DB} :
      Reachable db → Reachable (fileDestroy db uid fid).1

/-! ## Normal forms for the duplicate-upload branch -/

/-- The `reference_count` bump `File.increment_reference_count` applies to
the canonical row with id `eid`. -/
def bumpRef (eid : Nat) (f : StoredFile) : StoredFile :=
  if f.id = eid then { f with reference_count := f.reference_count + 1 } else f

/-- The reference row the duplicate branch creates (`apFlag` is its final
`ai_processed` value). -/
def dupRef (db : DB) (uid : String) (up : Upload) (existing : StoredFile)
    (apFlag : Bool) : StoredFile :=
  { id := db.nextId, path := existing.path, original_filename := up.name,
    file_type := up.ctype, size := up.content.length, user_id := uid,
    file_hash := calculate_file_hash up.content, is_reference := true,
    original_file := some existing.id, reference_count := 0, ai_processed := apFlag,
    ai_processing_failed := false }

/-- The state of the duplicate branch just before the final stats recount
(`M` is the resulting metadata table). -/
def dupDB (db : DB) (uid : String) (up : Upload) (existing : StoredFile) (apFlag : Bool)
    (M : List FileMetadata) : DB :=
  { db with files := dupRef db uid up existing apFlag :: db.files.map (bumpRef existing.id), metas := M, nextId := db.nextId + 1 }

/-! ## Normal forms for the new-canonical branch -/

/-- The "mark `ai_processed`" update applied after metadata persistence. -/
def aiMark (n : Nat) (f : StoredFile) : StoredFile :=
  if f.id = n then { f with ai_processed := true } else f

/-- The canonical row the quota-admitting branch creates. -/
def canonRow (db : DB) (uid : String) (up : Upload) (apFlag : Bool) : StoredFile :=
  { id := db.nextId, path := db.nextId, original_filename := up.name, file_type := up.ctype,
    size := up.content.length, user_id := uid, file_hash := calculate_file_hash up.content,
    is_reference := false, original_file := none, reference_count := 0, ai_processed := apFlag,
    ai_processing_failed := false }

/-- The metadata row persisted for a new canonical file (no `embedding`). -/
def canonMeta (db : DB) (md : MetaDict) : FileMetadata :=
  { file := db.nextId, summary := md.summary, category := md.category,
    subcategory := md.subcategory, tags := md.tags, entities := md.entities,
    key_info := md.key_info, embedding := none, confidence_score := md.confidence_score }

/-- The final state of the new-canonical branch. -/
def canonDB (db : DB) (uid : String) (up : Upload) (md : MetaDict) : DB :=
  let db0 := (getOrCreateStats db uid).2
  let db1 : DB := { db0 with files := canonRow db uid up false :: db0.files, blobs := db.nextId :: db0.blobs, nextId := db.nextId + 1 }
  let db2 := updateStatsRow db1 uid
  { db2 with files := canonRow db uid up true :: db.files, metas := canonMeta db md :: db2.metas }

/-! ## Branch characterizations of `FileViewSet.destroy` -/

/-- The `reference_count` decrement (`decrement_reference_count`, floored at
zero) applied to the canonical row with id `oid`. -/
def decRef (oid : Nat) (f : StoredFile) : StoredFile :=
  if f.id = oid then { f with reference_count := f.reference_count - 1 } else f

/-! ## Concrete fixtures and witnesses -/

/-- Environment with no AI services available at all. -/
def envNoAI : AIEnv :=
  { embedding_model := none, claude := fun _ _ _ => .err "down",
    extract := fun _ _ => none, cosine := fun _ _ => 0 }

/-- Environment whose analysis call always fails after a successful
extraction. -/
def envErr : AIEnv :=
  { embedding_model := none, claude := fun _ _ _ => .err "boom",
    extract := fun _ _ => some "txt", cosine := fun _ _ => 0 }

/-- Environment for exercising the search ranking. -/
def envSearch : AIEnv :=
  { embedding_model := some (fun _ => some [1]), claude := fun _ _ _ => .err "x",
    extract := fun _ _ => none, cosine := fun _ _ => 1 }

/-- A one-byte upload. -/
def upW : Upload := ⟨[1], "a.txt", "text/plain"⟩

/-- The state after uploading `upW` once into the empty store. -/
def dbW : DB := (fileCreate envNoAI DB.empty "u1" upW).1

/-- The canonical row held by `dbW`. -/
def instW : StoredFile :=
  { id := 0, path := 0, original_filename := "a.txt", file_type := "text/plain", size := 1,
    user_id := "u1", file_hash := [1], is_reference := false, original_file := none,
    reference_count := 0, ai_processed := true, ai_processing_failed := false }

/-! # Theorems -/

/-! ## General helper lemmas -/

theorem updateStatsRow_files (db : DB) (uid : String) :
    (updateStatsRow db uid).files = db.files := by
  unfold updateStatsRow; split <;> rfl

theorem updateStatsRow_metas (db : DB) (uid : String) :
    (updateStatsRow db uid).metas = db.metas := by
  unfold updateStatsRow; split <;> rfl

theorem updateStatsRow_blobs (db : DB) (uid : String) :
    (updateStatsRow db uid).blobs = db.blobs := by
  unfold updateStatsRow; split <;> rfl

theorem updateStatsRow_nextId (db : DB) (uid : String) :
    (updateStatsRow db uid).nextId = db.nextId := by
  unfold updateStatsRow; split <;> rfl

theorem getOrCreateStats_files (db : DB) (uid : String) :
    (getOrCreateStats db uid).2.files = db.files := by
  unfold getOrCreateStats; split <;> rfl

theorem getOrCreateStats_metas (db : DB) (uid : String) :
    (getOrCreateStats db uid).2.metas = db.metas := by
  unfold getOrCreateStats; split <;> rfl

theorem getOrCreateStats_blobs (db : DB) (uid : String) :
    (getOrCreateStats db uid).2.blobs = db.blobs := by
  unfold getOrCreateStats; split <;> rfl

theorem getOrCreateStats_nextId (db : DB) (uid : String) :
    (getOrCreateStats db uid).2.nextId = db.nextId := by
  unfold getOrCreateStats; split <;> rfl

theorem computeStats_user (uid : String) (files : List StoredFile) :
    (computeStats uid files).user_id = uid := rfl

/-- Partition of the size sum of a file list by the `is_reference` flag. -/
theorem sum_size_partition (l : List StoredFile) :
    ((l.filter (fun f => f.is_reference = false)).map (fun f => f.size)).sum +
      ((l.filter (fun f => f.is_reference = true)).map (fun f => f.size)).sum =
      (l.map (fun f => f.size)).sum := by
  induction l with
  | nil => simp
  | cons a l ih =>
      rcases Bool.eq_false_or_eq_true a.is_reference with ha | ha <;>
        simp only [List.filter_cons, List.map_cons, List.sum_cons, ha, decide_True,
          decide_False, Bool.false_eq_true, Bool.true_eq_false, if_true, if_false] <;>
        omega

theorem find?_map_setRow (l : List StorageStats) (uid : String) (r : StorageStats)
    (hr : r.user_id = uid) (hany : l.any (fun s => decide (s.user_id = uid)) = true) :
    (l.map (fun s => if s.user_id = uid then r else s)).find?
      (fun s => decide (s.user_id = uid)) = some r := by
  induction l with
  | nil => simp at hany
  | cons s l ih =>
      by_cases hs : s.user_id = uid
      · simp [List.find?_cons, hs, hr]
      · simp only [List.any_cons, Bool.or_eq_true, decide_eq_true_eq] at hany
        rcases hany with h | h
        · exact absurd h hs
        · simpa [List.find?_cons, hs] using ih (by simpa using h)

theorem map_setRow_of_none (l : List StorageStats) (uid : String) (r : StorageStats)
    (hnone : ∀ s ∈ l, ¬ s.user_id = uid) :
    l.map (fun s => if s.user_id = uid then r else s) = l := by
  conv_rhs => rw [← List.map_id l]
  apply List.map_congr_left
  intro s hs
  simp [hnone s hs]

/-- A stats row found after a recompute holds exactly the recount. -/
theorem updateStatsRow_find (db : DB) (uid : String) :
    (updateStatsRow db uid).stats.find? (fun s => decide (s.user_id = uid)) =
      some (computeStats uid db.files) := by
  unfold updateStatsRow
  by_cases hany : db.stats.any (fun s => decide (s.user_id = uid)) = true
  · rw [if_pos hany]
    exact find?_map_setRow db.stats uid _ (computeStats_user uid db.files) hany
  · rw [if_neg hany]
    simp [List.find?_cons, computeStats_user]

/-- Recomputing a user's stats twice in a row equals recomputing once. -/
theorem updateStatsRow_idem (db : DB) (uid : String) :
    updateStatsRow (updateStatsRow db uid) uid = updateStatsRow db uid := by
  unfold updateStatsRow
  by_cases hany : db.stats.any (fun s => decide (s.user_id = uid)) = true
  · rw [if_pos hany]
    simp only []
    have hany2 : (db.stats.map (fun s =>
        if s.user_id = uid then computeStats uid db.files else s)).any
          (fun s => decide (s.user_id = uid)) = true := by
      simp only [List.any_eq_true, decide_eq_true_eq] at hany ⊢
      obtain ⟨s, hs, hu⟩ := hany
      have hmem : (if s.user_id = uid then computeStats uid db.files else s) ∈
          db.stats.map (fun s => if s.user_id = uid then computeStats uid db.files else s) :=
        List.mem_map_of_mem _ hs
      rw [if_pos hu] at hmem
      exact ⟨_, hmem, computeStats_user uid db.files⟩
    rw [if_pos hany2]
    congr 1
    rw [List.map_map]
    apply List.map_congr_left
    intro s _
    by_cases hs : s.user_id = uid <;> simp [hs, computeStats_user]
  · rw [if_neg hany]
    simp only []
    rw [if_pos (by simp [computeStats_user])]
    congr 1
    simp only [List.map_cons, computeStats_user, if_pos rfl]
    congr 1
    apply map_setRow_of_none
    intro s hs h
    simp only [List.any_eq_true, decide_eq_true_eq] at hany
    exact hany ⟨s, hs, h⟩

/-! ## Claim theorems: storage accountant (C10) -/

/-- C10. For every owner, immediately after a storage-stats recompute the
persisted row is the full recount, its `original_storage_used` minus
`total_storage_used` equals the sum of `size` over that owner's reference
files, and recomputing again yields the same state. -/
theorem C10_stats_recompute (db : DB) (uid : String) :
    ((updateStatsRow db uid).stats.find? (fun s => decide (s.user_id = uid)) =
        some (computeStats uid db.files)) ∧
      ((computeStats uid db.files).storage_savings =
        ((((db.files.filter (fun f => decide (f.user_id = uid ∧ f.is_reference = true))).map
          (fun f => f.size)).sum : ℕ) : ℤ)) ∧
      updateStatsRow (updateStatsRow db uid) uid = updateStatsRow db uid := by
  refine ⟨updateStatsRow_find db uid, ?_, updateStatsRow_idem db uid⟩
  unfold computeStats StorageStats.storage_savings
  simp only []
  have hpart := sum_size_partition (db.files.filter (fun f => decide (f.user_id = uid)))
  have hsplit : db.files.filter (fun f => decide (f.user_id = uid ∧ f.is_reference = true)) =
      (db.files.filter (fun f => decide (f.user_id = uid))).filter
        (fun f => f.is_reference = true) := by
    rw [List.filter_filter]
    apply List.filter_congr
    intro f _
    by_cases h1 : f.user_id = uid <;> by_cases h2 : f.is_reference = true <;> simp [h1, h2]
  rw [hsplit]
  omega

/-! ## Validation/normalization lemmas (`_validate_metadata`, `_get_default_metadata`) -/

theorem validate_category_mem (m : RawMeta) : (validate_metadata m).category ∈ CATEGORIES := by
  unfold validate_metadata
  by_cases h : (m.category.getD "Other") ∈ CATEGORIES
  · rw [if_pos h]
    exact h
  · rw [if_neg h]
    show "Other" ∈ CATEGORIES
    decide

theorem validate_tags (m : RawMeta) : (validate_metadata m).tags = (m.tags.getD []).take 10 := by
  unfold validate_metadata
  by_cases h : (m.category.getD "Other") ∈ CATEGORIES
  · rw [if_pos h]
  · rw [if_neg h]

theorem validate_summary (m : RawMeta) :
    (validate_metadata m).summary = (m.summary.getD "").take 500 := by
  unfold validate_metadata
  by_cases h : (m.category.getD "Other") ∈ CATEGORIES
  · rw [if_pos h]
  · rw [if_neg h]

theorem validate_confidence (m : RawMeta) :
    (validate_metadata m).confidence_score = m.confidence_score.getD (1/2) := by
  unfold validate_metadata
  by_cases h : (m.category.getD "Other") ∈ CATEGORIES
  · rw [if_pos h]
  · rw [if_neg h]

theorem default_category (r : String) : (get_default_metadata r).category = "Other" := rfl

theorem default_tags (r : String) : (get_default_metadata r).tags = [] := rfl

theorem default_confidence (r : String) : (get_default_metadata r).confidence_score = 0 := rfl

theorem ite_embedding_category (c : Prop) [Decidable c] (m : MetaDict) (e : Option (List ℚ)) :
    (if c then { m with embedding := e } else m).category = m.category := by
  split <;> rfl

theorem ite_embedding_tags (c : Prop) [Decidable c] (m : MetaDict) (e : Option (List ℚ)) :
    (if c then { m with embedding := e } else m).tags = m.tags := by
  split <;> rfl

theorem ite_embedding_confidence (c : Prop) [Decidable c] (m : MetaDict) (e : Option (List ℚ)) :
    (if c then { m with embedding := e } else m).confidence_score = m.confidence_score := by
  split <;> rfl

theorem analyze_category_mem (o : ClaudeOutcome) :
    (analyze_with_claude o).category ∈ CATEGORIES := by
  cases o with
  | ok r => exact validate_category_mem r
  | err s =>
      rw [show analyze_with_claude (.err s) = get_default_metadata _ from rfl, default_category]
      decide

theorem analyze_tags_le (o : ClaudeOutcome) : (analyze_with_claude o).tags.length ≤ 10 := by
  cases o with
  | ok r =>
      rw [show analyze_with_claude (.ok r) = validate_metadata r from rfl, validate_tags]
      exact List.length_take_le 10 _
  | err s =>
      rw [show analyze_with_claude (.err s) = get_default_metadata _ from rfl, default_tags]
      simp

theorem process_file_extract_none (env : AIEnv) (c : List Nat) (t n : String)
    (h : env.extract c t = none) :
    process_file env c t n = get_default_metadata "Unable to extract content from file" := by
  unfold process_file
  rw [h]

theorem process_file_extract_some (env : AIEnv) (c : List Nat) (t n txt : String)
    (h : env.extract c t = some txt) :
    process_file env c t n =
      (if txt = "" then get_default_metadata "Unable to extract content from file"
       else
         if (analyze_with_claude (env.claude txt n t)).summary ≠ "" then
           { analyze_with_claude (env.claude txt n t) with
             embedding := compute_embedding env (analyze_with_claude (env.claude txt n t)).summary }
         else analyze_with_claude (env.claude txt n t)) := by
  unfold process_file
  rw [h]

/-- C8 counterexample: the enrichment pipeline run on a response whose
`confidence_score` is 2 persists that score unchanged — `_validate_metadata`
never clamps it into [0,1], refuting the claim as stated. -/
theorem C8_confidence_not_clamped :
    (process_file envOverconfident [0] "text/plain" "a.txt").confidence_score = 2 ∧
      ¬ ((process_file envOverconfident [0] "text/plain" "a.txt").confidence_score ≤ 1) := by
  have h1 : (process_file envOverconfident [0] "text/plain" "a.txt").confidence_score = 2 := by
    rw [process_file_extract_some envOverconfident [0] "text/plain" "a.txt" "sample text" rfl]
    rw [if_neg (by decide : ¬ ("sample text" = ""))]
    rw [ite_embedding_confidence]
    rw [show analyze_with_claude (envOverconfident.claude "sample text" "a.txt" "text/plain") =
      validate_metadata rawOverconfident from rfl]
    rw [validate_confidence]
    rfl
  refine ⟨h1, ?_⟩
  rw [h1]
  decide

/-- C8 as amended: every record from the pipeline has a category in the fixed
enumeration and at most 10 tags; records built from a parsed AI response have
a summary of at most 500 characters; the default record has category `Other`,
no tags and confidence 0. (The confidence score is only float-coerced — 0.5
when absent — not clamped into [0,1]; a default record keeps the full failure
reason as its summary.) -/
theorem C8_enrichment_bounds :
    (∀ env content ftype fname, (process_file env content ftype fname).category ∈ CATEGORIES ∧
        (process_file env content ftype fname).tags.length ≤ 10) ∧
      (∀ m : RawMeta, (validate_metadata m).category ∈ CATEGORIES ∧
        (validate_metadata m).tags.length ≤ 10 ∧ (validate_metadata m).summary.length ≤ 500) ∧
      (∀ r : String, (get_default_metadata r).category = "Other" ∧
        (get_default_metadata r).tags = [] ∧ (get_default_metadata r).confidence_score = 0) := by
  refine ⟨?_, ?_, ?_⟩
  · intro env content ftype fname
    cases hE : env.extract content ftype with
    | none =>
        rw [process_file_extract_none env content ftype fname hE, default_category, default_tags]
        exact ⟨by decide, by simp⟩
    | some txt =>
        rw [process_file_extract_some env content ftype fname txt hE]
        by_cases ht : txt = ""
        · rw [if_pos ht, default_category, default_tags]
          exact ⟨by decide, by simp⟩
        · rw [if_neg ht, ite_embedding_category, ite_embedding_tags]
          exact ⟨analyze_category_mem _, analyze_tags_le _⟩
  · intro m
    refine ⟨validate_category_mem m, ?_, ?_⟩
    · rw [validate_tags]
      exact List.length_take_le 10 _
    · rw [validate_summary, String.take_eq]
      show ((m.summary.getD "").1.take 500).length ≤ 500
      simp [List.length_take]
  · intro r
    exact ⟨rfl, rfl, rfl⟩

/-! ## Claim C2: end-to-end semantic search over uploaded files is empty -/

theorem semantic_search_no_embeddings (env : AIEnv) (q : String) (cands : List Candidate)
    (h : ∀ c ∈ cands, c.embedding = none) : semantic_search env q cands = [] := by
  unfold semantic_search
  by_cases h0 : cands = [] ∨ env.embedding_model.isNone = true
  · rw [if_pos h0]
  · rw [if_neg h0]
    cases hq : compute_embedding env q with
    | none => rfl
    | some qe =>
        simp only []
        have hf : cands.filter (fun f => f.embedding.isSome) = [] := by
          rw [List.filter_eq_nil_iff]
          intro c hc
          simp [h c hc]
        rw [hf]
        simp

/-- C2. For every environment, state, user and query, `smart_search` returns
the empty result list: the candidate dicts it builds carry no `embedding`
entry, so no candidate passes `semantic_search`'s has-embedding filter (and
the upload path never persisted an embedding to read in the first place). -/
theorem C2_smart_search_always_empty (env : AIEnv) (db : DB) (uid : String) (q : String) :
    smart_search env db uid q = [] := by
  unfold smart_search
  by_cases h0 : db.files.filter (fun f => decide (f.user_id = uid ∧ f.ai_processed = true)) = []
  · rw [if_pos h0]
  · rw [if_neg h0]
    apply semantic_search_no_embeddings
    intro c hc
    simp only [List.mem_filterMap, Option.map_eq_some'] at hc
    obtain ⟨f, hf, m, hm, hc⟩ := hc
    rw [← hc]

/-- C1 (code bug): on a canonical upload whose enrichment produces a
non-empty summary with the embedding service available, `process_file`
returns a metadata dict whose `embedding` is present, but the
`FileMetadata` row persisted by `FileViewSet.create` omits the field and
stores `embedding = None`. -/
theorem C1_embedding_dropped_on_persist :
    (process_file envFull [1, 2] "text/plain" "a.txt").embedding = some [1, 2, 3] ∧
      ((fileCreate envFull DB.empty "u1" ⟨[1, 2], "a.txt", "text/plain"⟩).1.metas.map
        (fun m => (m.file, m.embedding))) = [(0, none)] ∧
      (fileCreate envFull DB.empty "u1" ⟨[1, 2], "a.txt", "text/plain"⟩).2 = .created 0 := by
  refine ⟨?_, rfl, rfl⟩
  rw [process_file_extract_some envFull [1, 2] "text/plain" "a.txt" "hello world" rfl]
  rw [if_neg (by decide : ¬ ("hello world" = ""))]
  rw [show analyze_with_claude (envFull.claude "hello world" "a.txt" "text/plain") =
    validate_metadata rawGood from rfl]
  have hsum : (validate_metadata rawGood).summary = "A useful summary." := by
    rw [validate_summary]
    simp [rawGood, String.take_eq]
  rw [hsum]
  rw [if_pos (by decide : ("A useful summary." : String) ≠ "")]
  rfl

/-! ## Branch characterizations of `FileViewSet.create` -/

/-- The canonical branch of `create` when the quota rejects the upload. -/
theorem fileCreate_quota_reject (env : AIEnv) (db : DB) (uid : String) (up : Upload)
    (hdup : db.files.find? (fun f => decide (f.file_hash = calculate_file_hash up.content ∧
      f.user_id = uid ∧ f.is_reference = false)) = none)
    (hq : STORAGE_QUOTA_BYTES < (getOrCreateStats db uid).1.total_storage_used +
      up.content.length) :
    fileCreate env db uid up = ((getOrCreateStats db uid).2, .quotaExceeded) := by
  unfold fileCreate
  simp only []
  rw [hdup]
  simp only []
  rw [if_pos hq]

/-- The canonical branch of `create` when the quota admits the upload. -/
theorem fileCreate_new_canonical (env : AIEnv) (db : DB) (uid : String) (up : Upload)
    (hdup : db.files.find? (fun f => decide (f.file_hash = calculate_file_hash up.content ∧
      f.user_id = uid ∧ f.is_reference = false)) = none)
    (hq : ¬ STORAGE_QUOTA_BYTES < (getOrCreateStats db uid).1.total_storage_used +
      up.content.length) :
    fileCreate env db uid up =
      (let db0 := (getOrCreateStats db uid).2
       let nf : StoredFile :=
         { id := db.nextId, path := db.nextId,
           original_filename := up.name, file_type := up.ctype, size := up.content.length,
           user_id := uid, file_hash := calculate_file_hash up.content, is_reference := false,
           original_file := none, reference_count := 0, ai_processed := false,
           ai_processing_failed := false }
       let db1 : DB := { db0 with files := nf :: db0.files, blobs := db.nextId :: db0.blobs, nextId := db.nextId + 1 }
       let db2 := updateStatsRow db1 uid
       let md := process_file env up.content up.ctype up.name
       let nm : FileMetadata :=
         { file := db.nextId, summary := md.summary,
           category := md.category, subcategory := md.subcategory, tags := md.tags,
           entities := md.entities, key_info := md.key_info, embedding := none,
           confidence_score := md.confidence_score }
       let files4 := db2.files.map (fun f =>
         if f.id = db.nextId then { f with ai_processed := true } else f)
       ({ db2 with files := files4, metas := nm :: db2.metas }, .created db.nextId)) := by
  unfold fileCreate
  simp only []
  rw [hdup]
  simp only []
  rw [if_neg hq]

/-- The duplicate branch of `create`. -/
theorem fileCreate_dup (env : AIEnv) (db : DB) (uid : String) (up : Upload)
    (existing : StoredFile)
    (hfind : db.files.find? (fun f => decide (f.file_hash = calculate_file_hash up.content ∧
      f.user_id = uid ∧ f.is_reference = false)) = some existing) :
    fileCreate env db uid up =
      (let nf : StoredFile :=
         { id := db.nextId, path := existing.path,
           original_filename := up.name, file_type := up.ctype, size := up.content.length,
           user_id := uid, file_hash := calculate_file_hash up.content, is_reference := true,
           original_file := some existing.id, reference_count := 0, ai_processed := false,
           ai_processing_failed := false }
       let files2 := (nf :: db.files).map (fun f =>
         if f.id = existing.id then { f with reference_count := f.reference_count + 1 } else f)
       match db.metas.find? (fun m => decide (m.file = existing.id)) with
       | some om =>
           let files3 := files2.map (fun f =>
             if f.id = db.nextId then { f with ai_processed := true } else f)
           let nm : FileMetadata :=
             { file := db.nextId, summary := om.summary,
               category := om.category, subcategory := om.subcategory, tags := om.tags,
               entities := om.entities, key_info := om.key_info, embedding := none,
               confidence_score := om.confidence_score }
           (updateStatsRow { db with files := files3, metas := nm :: db.metas, nextId := db.nextId + 1 } uid, .created db.nextId)
       | none =>
           (updateStatsRow { db with files := files2, nextId := db.nextId + 1 } uid,
             .created db.nextId)) := by
  unfold fileCreate
  simp only []
  rw [hfind]

/-! ## Claim C7: analysis failure degrades to default metadata, still processed -/

/-- C7. If extraction succeeds but the AI analysis call fails (or returns
non-parseable content), a canonical upload still persists a metadata row with
category `Other` and confidence 0, and the file ends `ai_processed = true`
with `ai_processing_failed = false`. -/
theorem C7_analysis_failure_still_processed
    (env : AIEnv) (db : DB) (uid : String) (up : Upload) (txt msg : String)
    (hex : env.extract up.content up.ctype = some txt) (hne : ¬ txt = "")
    (hcl : env.claude txt up.name up.ctype = .err msg)
    (hdup : db.files.find? (fun f => decide (f.file_hash = calculate_file_hash up.content ∧
      f.user_id = uid ∧ f.is_reference = false)) = none)
    (hq : ¬ STORAGE_QUOTA_BYTES < (getOrCreateStats db uid).1.total_storage_used +
      up.content.length) :
    (fileCreate env db uid up).2 = .created db.nextId ∧
      ((fileCreate env db uid up).1.metas.find? (fun m => decide (m.file = db.nextId))).map
        (fun m => (m.category, m.confidence_score)) = some ("Other", 0) ∧
      ((fileCreate env db uid up).1.files.find? (fun f => decide (f.id = db.nextId))).map
        (fun f => (f.ai_processed, f.ai_processing_failed)) = some (true, false) := by
  have hmd_cat : (process_file env up.content up.ctype up.name).category = "Other" := by
    rw [process_file_extract_some env up.content up.ctype up.name txt hex, if_neg hne,
      ite_embedding_category, hcl,
      show analyze_with_claude (.err msg) = get_default_metadata _ from rfl, default_category]
  have hmd_conf : (process_file env up.content up.ctype up.name).confidence_score = 0 := by
    rw [process_file_extract_some env up.content up.ctype up.name txt hex, if_neg hne,
      ite_embedding_confidence, hcl,
      show analyze_with_claude (.err msg) = get_default_metadata _ from rfl, default_confidence]
  rw [fileCreate_new_canonical env db uid up hdup hq]
  refine ⟨rfl, ?_, ?_⟩
  · simp only [updateStatsRow_metas]
    rw [List.find?_cons_of_pos _ (by simp)]
    simp [hmd_cat, hmd_conf]
  · simp only [updateStatsRow_files, getOrCreateStats_files, List.map_cons, if_true]
    rw [List.find?_cons_of_pos _ (by simp)]
    rfl

/-! ## List bookkeeping lemmas -/

theorem nodup_all_eq_singleton {α : Type} (l : List α) (c : α) (hn : l.Nodup)
    (hne : l ≠ []) (hall : ∀ x ∈ l, x = c) : l = [c] := by
  match l with
  | [] => exact absurd rfl hne
  | a :: t =>
      have ha := hall a (List.mem_cons_self a t)
      cases t with
      | nil => rw [ha]
      | cons b t2 =>
          have hb := hall b (by simp)
          rw [List.nodup_cons] at hn
          have hmem : a ∈ b :: t2 := by
            rw [ha, hb]
            exact List.mem_cons_self c t2
          exact absurd hmem hn.1

theorem length_filter_partition {α : Type} (l : List α) (p q : α → Bool) :
    ((l.filter q).filter p).length + ((l.filter (fun x => !q x)).filter p).length =
      (l.filter p).length := by
  induction l with
  | nil => rfl
  | cons a l ih =>
      by_cases hq : q a = true <;> by_cases hp : p a = true <;>
        simp [List.filter_cons, hq, hp, -List.filter_filter] <;> omega

/-! ## `computeStats` congruence lemmas -/

theorem computeStats_map (uid : String) (l : List StoredFile) (g : StoredFile → StoredFile)
    (hu : ∀ f, (g f).user_id = f.user_id) (hs : ∀ f, (g f).size = f.size)
    (hr : ∀ f, (g f).is_reference = f.is_reference) :
    computeStats uid (l.map g) = computeStats uid l := by
  unfold computeStats
  simp only []
  rw [List.filter_map]
  have hfu : (fun f => decide (f.user_id = uid)) ∘ g = (fun f => decide (f.user_id = uid)) := by
    funext f
    simp [Function.comp, hu f]
  rw [hfu]
  have h1 : (((l.filter (fun f => decide (f.user_id = uid))).map g).map (fun f => f.size)) =
      (l.filter (fun f => decide (f.user_id = uid))).map (fun f => f.size) := by
    rw [List.map_map]
    apply List.map_congr_left
    intro f _
    simp [Function.comp, hs f]
  have h2 : ((l.filter (fun f => decide (f.user_id = uid))).map g).filter
        (fun f => f.is_reference = false) =
      ((l.filter (fun f => decide (f.user_id = uid))).filter
        (fun f => f.is_reference = false)).map g := by
    rw [List.filter_map]
    congr 1
    apply List.filter_congr
    intro f _
    simp [Function.comp, hr f]
  rw [h1, h2]
  have h3 : ((((l.filter (fun f => decide (f.user_id = uid))).filter
        (fun f => f.is_reference = false)).map g).map (fun f => f.size)) =
      ((l.filter (fun f => decide (f.user_id = uid))).filter
        (fun f => f.is_reference = false)).map (fun f => f.size) := by
    rw [List.map_map]
    apply List.map_congr_left
    intro f _
    simp [Function.comp, hs f]
  rw [h3, List.length_map]

theorem computeStats_cons_ne (uid : String) (f : StoredFile) (l : List StoredFile)
    (h : ¬ f.user_id = uid) : computeStats uid (f :: l) = computeStats uid l := by
  unfold computeStats
  rw [List.filter_cons]
  simp [h]

theorem computeStats_filter (v : String) (l : List StoredFile) (q : StoredFile → Bool)
    (h : ∀ f ∈ l, f.user_id = v → q f = true) :
    computeStats v (l.filter q) = computeStats v l := by
  unfold computeStats
  have heq : (l.filter q).filter (fun f => decide (f.user_id = v)) =
      l.filter (fun f => decide (f.user_id = v)) := by
    rw [List.filter_filter]
    apply List.filter_congr
    intro f hf
    by_cases hu : f.user_id = v
    · simp [hu, h f hf hu]
    · simp [hu]
  rw [heq]

theorem computeStats_empty_user (uid : String) (l : List StoredFile)
    (h : ∀ f ∈ l, ¬ f.user_id = uid) : computeStats uid l = ⟨uid, 0, 0, 0⟩ := by
  unfold computeStats
  have heq : l.filter (fun f => decide (f.user_id = uid)) = [] := by
    rw [List.filter_eq_nil_iff]
    intro f hf
    simp [h f hf]
  rw [heq]
  rfl

/-! ## `updateStatsRow` membership lemmas -/

theorem mem_updateStatsRow_stats (db : DB) (uid : String) (r : StorageStats)
    (hr : r ∈ (updateStatsRow db uid).stats) :
    r = computeStats uid db.files ∨ (r ∈ db.stats ∧ ¬ r.user_id = uid) := by
  unfold updateStatsRow at hr
  by_cases hany : db.stats.any (fun s => decide (s.user_id = uid)) = true
  · rw [if_pos hany] at hr
    simp only [List.mem_map] at hr
    obtain ⟨s, hs, heq⟩ := hr
    by_cases hu : s.user_id = uid
    · rw [if_pos hu] at heq
      exact Or.inl heq.symm
    · rw [if_neg hu] at heq
      exact Or.inr ⟨heq ▸ hs, heq ▸ hu⟩
  · rw [if_neg hany] at hr
    rcases List.mem_cons.mp hr with h | h
    · exact Or.inl h
    · refine Or.inr ⟨h, fun hu => ?_⟩
      simp only [List.any_eq_true, decide_eq_true_eq] at hany
      exact hany ⟨r, h, hu⟩

theorem updateStatsRow_exists_self (db : DB) (uid : String) :
    ∃ r ∈ (updateStatsRow db uid).stats, r.user_id = uid := by
  unfold updateStatsRow
  by_cases hany : db.stats.any (fun s => decide (s.user_id = uid)) = true
  · rw [if_pos hany]
    simp only [List.any_eq_true, decide_eq_true_eq] at hany
    obtain ⟨s, hs, hu⟩ := hany
    have hmem : (if s.user_id = uid then computeStats uid db.files else s) ∈
        db.stats.map (fun s => if s.user_id = uid then computeStats uid db.files else s) :=
      List.mem_map_of_mem _ hs
    rw [if_pos hu] at hmem
    exact ⟨_, hmem, computeStats_user uid db.files⟩
  · rw [if_neg hany]
    exact ⟨_, List.mem_cons_self _ _, computeStats_user uid db.files⟩

theorem updateStatsRow_exists_other (db : DB) (uid v : String)
    (h : ∃ r ∈ db.stats, r.user_id = v) :
    ∃ r ∈ (updateStatsRow db uid).stats, r.user_id = v := by
  by_cases hv : v = uid
  · subst hv
    exact updateStatsRow_exists_self db _
  · obtain ⟨r, hr, hrv⟩ := h
    unfold updateStatsRow
    by_cases hany : db.stats.any (fun s => decide (s.user_id = uid)) = true
    · rw [if_pos hany]
      have hru : ¬ r.user_id = uid := by rw [hrv]; exact hv
      have hmem : (if r.user_id = uid then computeStats uid db.files else r) ∈
          db.stats.map (fun s => if s.user_id = uid then computeStats uid db.files else s) :=
        List.mem_map_of_mem _ hr
      rw [if_neg hru] at hmem
      exact ⟨r, hmem, hrv⟩
    · rw [if_neg hany]
      exact ⟨r, List.mem_cons_of_mem _ hr, hrv⟩

theorem inv_empty : Inv DB.empty := by
  constructor <;> simp [DB.empty]

theorem bumpRef_id (eid : Nat) (f : StoredFile) : (bumpRef eid f).id = f.id := by
  unfold bumpRef; split <;> rfl

theorem bumpRef_path (eid : Nat) (f : StoredFile) : (bumpRef eid f).path = f.path := by
  unfold bumpRef; split <;> rfl

theorem bumpRef_user (eid : Nat) (f : StoredFile) : (bumpRef eid f).user_id = f.user_id := by
  unfold bumpRef; split <;> rfl

theorem bumpRef_hash (eid : Nat) (f : StoredFile) : (bumpRef eid f).file_hash = f.file_hash := by
  unfold bumpRef; split <;> rfl

theorem bumpRef_isref (eid : Nat) (f : StoredFile) :
    (bumpRef eid f).is_reference = f.is_reference := by
  unfold bumpRef; split <;> rfl

theorem bumpRef_orig (eid : Nat) (f : StoredFile) :
    (bumpRef eid f).original_file = f.original_file := by
  unfold bumpRef; split <;> rfl

theorem bumpRef_size (eid : Nat) (f : StoredFile) : (bumpRef eid f).size = f.size := by
  unfold bumpRef; split <;> rfl

theorem bumpRef_rc (eid : Nat) (f : StoredFile) : (bumpRef eid f).reference_count =
    (if f.id = eid then f.reference_count + 1 else f.reference_count) := by
  unfold bumpRef; split <;> rfl

/-- `fileCreate` on a duplicate reduces to `dupDB` plus the stats recount. -/
theorem fileCreate_dup_eq (env : AIEnv) (db : DB) (uid : String) (up : Upload)
    (existing : StoredFile)
    (hfind : db.files.find? (fun f => decide (f.file_hash = calculate_file_hash up.content ∧
      f.user_id = uid ∧ f.is_reference = false)) = some existing)
    (hid : existing.id < db.nextId) (hlt : ∀ f ∈ db.files, f.id < db.nextId) :
    (fileCreate env db uid up).1 =
      (match db.metas.find? (fun m => decide (m.file = existing.id)) with
       | some om => updateStatsRow (dupDB db uid up existing true
           ({ file := db.nextId, summary := om.summary, category := om.category,
              subcategory := om.subcategory, tags := om.tags, entities := om.entities,
              key_info := om.key_info, embedding := none,
              confidence_score := om.confidence_score } :: db.metas)) uid
       | none => updateStatsRow (dupDB db uid up existing false db.metas) uid) := by
  have hne : ¬ db.nextId = existing.id := fun hEq => absurd (hEq ▸ hid) (lt_irrefl _)
  have h1 : bumpRef existing.id (dupRef db uid up existing false) =
      dupRef db uid up existing false := by
    unfold bumpRef
    rw [if_neg (show ¬ (dupRef db uid up existing false).id = existing.id from hne)]
  rw [fileCreate_dup env db uid up existing hfind]
  cases hm : db.metas.find? (fun m => decide (m.file = existing.id)) with
  | none =>
      simp only []
      refine congrArg (fun d => updateStatsRow d uid) ?_
      unfold dupDB
      congr 1
      show (dupRef db uid up existing false :: db.files).map (bumpRef existing.id) =
        dupRef db uid up existing false :: db.files.map (bumpRef existing.id)
      rw [List.map_cons, h1]
  | some om =>
      simp only []
      refine congrArg (fun d => updateStatsRow d uid) ?_
      unfold dupDB
      congr 1
      show ((dupRef db uid up existing false :: db.files).map (bumpRef existing.id)).map
          (fun f => if f.id = db.nextId then { f with ai_processed := true } else f) =
        dupRef db uid up existing true :: db.files.map (bumpRef existing.id)
      rw [List.map_cons, h1, List.map_cons]
      congr 1
      · rw [if_pos (show (dupRef db uid up existing false).id = db.nextId from rfl)]
        rfl
      · have h3 : ∀ x ∈ db.files.map (bumpRef existing.id),
            (fun f => if f.id = db.nextId then { f with ai_processed := true } else f) x =
              id x := by
          intro x hx
          obtain ⟨y, hy, hxy⟩ := List.mem_map.mp hx
          have hxid : x.id = y.id := by rw [← hxy, bumpRef_id]
          have hx2 : ¬ x.id = db.nextId := by
            rw [hxid]
            exact Nat.ne_of_lt (hlt y hy)
          simp only [id]
          rw [if_neg hx2]
        rw [List.map_congr_left h3, List.map_id]

/-- The duplicate-upload branch preserves the store invariant. -/
theorem inv_create_dup_core (db : DB) (uid : String) (up : Upload) (existing : StoredFile)
    (hInv : Inv db) (hmem : existing ∈ db.files)
    (hhash : existing.file_hash = calculate_file_hash up.content)
    (huser : existing.user_id = uid) (hcanon : existing.is_reference = false)
    (apFlag : Bool) (M : List FileMetadata) (hM : ∀ m ∈ M, m.embedding = none) :
    Inv (updateStatsRow (dupDB db uid up existing apFlag M) uid) := by
  have hfiles : (updateStatsRow (dupDB db uid up existing apFlag M) uid).files =
      dupRef db uid up existing apFlag :: db.files.map (bumpRef existing.id) := by
    rw [updateStatsRow_files]
    rfl
  have hmetas : (updateStatsRow (dupDB db uid up existing apFlag M) uid).metas = M := by
    rw [updateStatsRow_metas]
    rfl
  have hblobs : (updateStatsRow (dupDB db uid up existing apFlag M) uid).blobs = db.blobs := by
    rw [updateStatsRow_blobs]
    rfl
  have hnext : (updateStatsRow (dupDB db uid up existing apFlag M) uid).nextId =
      db.nextId + 1 := by
    rw [updateStatsRow_nextId]
    rfl
  have hnfid : (dupRef db uid up existing apFlag).id = db.nextId := rfl
  have hnfref : (dupRef db uid up existing apFlag).is_reference = true := rfl
  have hnfuser : (dupRef db uid up existing apFlag).user_id = uid := rfl
  refine { idsNodup := ?_, idsLt := ?_, pathLt := ?_, canonUnique := ?_, refTarget := ?_,
           canonNoTarget := ?_, refCount := ?_, sizeEq := ?_, blobIff := ?_,
           blobsNodup := ?_, canonPathInj := ?_, metasEmbNone := ?_, statsAcc := ?_,
           statsExists := ?_ }
  · -- idsNodup
    rw [hfiles, List.map_cons, List.map_map]
    rw [show ((fun f : StoredFile => f.id) ∘ bumpRef existing.id) =
      (fun f : StoredFile => f.id) from funext (fun f => bumpRef_id _ f)]
    rw [List.nodup_cons]
    refine ⟨?_, hInv.idsNodup⟩
    intro hmem2
    obtain ⟨y, hy, hyid⟩ := List.mem_map.mp hmem2
    exact absurd hyid (Nat.ne_of_lt (hInv.idsLt y hy))
  · -- idsLt
    intro f hf
    rw [hfiles] at hf
    rw [hnext]
    rcases List.mem_cons.mp hf with rfl | hf'
    · rw [hnfid]
      exact Nat.lt_succ_self _
    · obtain ⟨y, hy, rfl⟩ := List.mem_map.mp hf'
      rw [bumpRef_id]
      exact Nat.lt_succ_of_lt (hInv.idsLt y hy)
  · -- pathLt
    intro f hf
    rw [hfiles] at hf
    rw [hnext]
    rcases List.mem_cons.mp hf with rfl | hf'
    · show existing.path < db.nextId + 1
      exact Nat.lt_succ_of_lt (hInv.pathLt existing hmem)
    · obtain ⟨y, hy, rfl⟩ := List.mem_map.mp hf'
      rw [bumpRef_path]
      exact Nat.lt_succ_of_lt (hInv.pathLt y hy)
  · -- canonUnique
    intro f hf f2 hf2 hu hh hc1 hc2
    rw [hfiles] at hf hf2
    rcases List.mem_cons.mp hf with rfl | hf'
    · rw [hnfref] at hc1
      exact absurd hc1 (by simp)
    rcases List.mem_cons.mp hf2 with rfl | hf2'
    · rw [hnfref] at hc2
      exact absurd hc2 (by simp)
    obtain ⟨y1, hy1, rfl⟩ := List.mem_map.mp hf'
    obtain ⟨y2, hy2, rfl⟩ := List.mem_map.mp hf2'
    rw [bumpRef_user, bumpRef_user] at hu
    rw [bumpRef_hash, bumpRef_hash] at hh
    rw [bumpRef_isref] at hc1 hc2
    rw [hInv.canonUnique y1 hy1 y2 hy2 hu hh hc1 hc2]
  · -- refTarget
    intro f hf href
    rw [hfiles] at hf ⊢
    rcases List.mem_cons.mp hf with rfl | hf'
    · refine ⟨bumpRef existing.id existing,
        List.mem_cons_of_mem _ (List.mem_map_of_mem _ hmem), ?_, ?_, ?_, ?_⟩
      · rw [bumpRef_id]
        rfl
      · rw [bumpRef_isref]
        exact hcanon
      · rw [bumpRef_user, hnfuser]
        exact huser
      · rw [bumpRef_hash]
        exact hhash
    · obtain ⟨y, hy, rfl⟩ := List.mem_map.mp hf'
      rw [bumpRef_isref] at href
      obtain ⟨c, hc, horig, hcref, hcuser, hchash⟩ := hInv.refTarget y hy href
      refine ⟨bumpRef existing.id c,
        List.mem_cons_of_mem _ (List.mem_map_of_mem _ hc), ?_, ?_, ?_, ?_⟩
      · rw [bumpRef_orig, bumpRef_id]
        exact horig
      · rw [bumpRef_isref]
        exact hcref
      · rw [bumpRef_user, bumpRef_user]
        exact hcuser
      · rw [bumpRef_hash, bumpRef_hash]
        exact hchash
  · -- canonNoTarget
    intro f hf hc
    rw [hfiles] at hf
    rcases List.mem_cons.mp hf with rfl | hf'
    · rw [hnfref] at hc
      exact absurd hc (by simp)
    · obtain ⟨y, hy, rfl⟩ := List.mem_map.mp hf'
      rw [bumpRef_isref] at hc
      rw [bumpRef_orig]
      exact hInv.canonNoTarget y hy hc
  · -- refCount
    intro c hc hcref
    rw [hfiles] at hc ⊢
    rcases List.mem_cons.mp hc with rfl | hc'
    · rw [hnfref] at hcref
      exact absurd hcref (by simp)
    obtain ⟨y, hy, rfl⟩ := List.mem_map.mp hc'
    rw [bumpRef_isref] at hcref
    have hpred : (fun f : StoredFile => decide (f.is_reference = true ∧
        f.original_file = some (bumpRef existing.id y).id)) =
        (fun f : StoredFile => decide (f.is_reference = true ∧
          f.original_file = some y.id)) := by
      funext f
      rw [bumpRef_id]
    rw [hpred]
    have hfm : ((db.files.map (bumpRef existing.id)).filter (fun f =>
        decide (f.is_reference = true ∧ f.original_file = some y.id))).length =
        ((db.files.filter (fun f =>
          decide (f.is_reference = true ∧ f.original_file = some y.id))).length) := by
      rw [List.filter_map]
      rw [List.length_map]
      congr 1
      apply List.filter_congr
      intro x _
      show decide ((bumpRef existing.id x).is_reference = true ∧
        (bumpRef existing.id x).original_file = some y.id) = _
      rw [bumpRef_isref, bumpRef_orig]
    rw [List.filter_cons]
    by_cases hcase : y.id = existing.id
    · have hye : y = existing :=
        List.inj_on_of_nodup_map hInv.idsNodup hy hmem hcase
      have hpos : decide ((dupRef db uid up existing apFlag).is_reference = true ∧
          (dupRef db uid up existing apFlag).original_file = some y.id) = true := by
        rw [decide_eq_true_eq]
        refine ⟨rfl, ?_⟩
        rw [hye]
        rfl
      rw [if_pos hpos, List.length_cons, hfm]
      have hrc : (bumpRef existing.id y).reference_count = y.reference_count + 1 := by
        rw [bumpRef_rc, if_pos hcase]
      rw [hrc]
      have hold := hInv.refCount y hy hcref
      omega
    · have hneg : decide ((dupRef db uid up existing apFlag).is_reference = true ∧
          (dupRef db uid up existing apFlag).original_file = some y.id) = false := by
        rw [decide_eq_false_iff_not]
        intro hAnd
        have : existing.id = y.id := by
          have := hAnd.2
          simpa [dupRef] using this
        exact hcase this.symm
      rw [if_neg (by rw [hneg]; simp), hfm]
      have hrc : (bumpRef existing.id y).reference_count = y.reference_count := by
        rw [bumpRef_rc, if_neg hcase]
      rw [hrc]
      exact hInv.refCount y hy hcref
  · -- sizeEq
    intro f hf
    rw [hfiles] at hf
    rcases List.mem_cons.mp hf with rfl | hf'
    · rfl
    · obtain ⟨y, hy, rfl⟩ := List.mem_map.mp hf'
      rw [bumpRef_size, bumpRef_hash]
      exact hInv.sizeEq y hy
  · -- blobIff
    intro b
    rw [hfiles, hblobs]
    constructor
    · intro hb
      obtain ⟨c, hc, hcref, hcpath⟩ := (hInv.blobIff b).mp hb
      refine ⟨bumpRef existing.id c,
        List.mem_cons_of_mem _ (List.mem_map_of_mem _ hc), ?_, ?_⟩
      · rw [bumpRef_isref]
        exact hcref
      · rw [bumpRef_path]
        exact hcpath
    · rintro ⟨c, hc, hcref, hcpath⟩
      rcases List.mem_cons.mp hc with rfl | hc'
      · rw [hnfref] at hcref
        exact absurd hcref (by simp)
      · obtain ⟨y, hy, rfl⟩ := List.mem_map.mp hc'
        rw [bumpRef_isref] at hcref
        rw [bumpRef_path] at hcpath
        exact (hInv.blobIff b).mpr ⟨y, hy, hcref, hcpath⟩
  · -- blobsNodup
    rw [hblobs]
    exact hInv.blobsNodup
  · -- canonPathInj
    intro f hf f2 hf2 hc1 hc2 hp
    rw [hfiles] at hf hf2
    rcases List.mem_cons.mp hf with rfl | hf'
    · rw [hnfref] at hc1
      exact absurd hc1 (by simp)
    rcases List.mem_cons.mp hf2 with rfl | hf2'
    · rw [hnfref] at hc2
      exact absurd hc2 (by simp)
    obtain ⟨y1, hy1, rfl⟩ := List.mem_map.mp hf'
    obtain ⟨y2, hy2, rfl⟩ := List.mem_map.mp hf2'
    rw [bumpRef_isref] at hc1 hc2
    rw [bumpRef_path, bumpRef_path] at hp
    rw [hInv.canonPathInj y1 hy1 y2 hy2 hc1 hc2 hp]
  · -- metasEmbNone
    rw [hmetas]
    exact hM
  · -- statsAcc
    intro r hr
    rcases mem_updateStatsRow_stats _ uid r hr with heq | ⟨hrold, hrne⟩
    · rw [heq, computeStats_user, updateStatsRow_files]
    · have hold := hInv.statsAcc r hrold
      have hstep : computeStats r.user_id
          ((updateStatsRow (dupDB db uid up existing apFlag M) uid).files) =
          computeStats r.user_id db.files := by
        rw [hfiles]
        rw [computeStats_cons_ne r.user_id _ _ (by rw [hnfuser]; exact fun h => hrne h.symm)]
        exact computeStats_map r.user_id db.files _ (bumpRef_user _) (bumpRef_size _)
          (bumpRef_isref _)
      rw [hstep]
      exact hold
  · -- statsExists
    intro f hf
    rw [hfiles] at hf
    rcases List.mem_cons.mp hf with rfl | hf'
    · obtain ⟨r, hr, hru⟩ := updateStatsRow_exists_self (dupDB db uid up existing apFlag M) uid
      exact ⟨r, hr, hru⟩
    · obtain ⟨y, hy, rfl⟩ := List.mem_map.mp hf'
      obtain ⟨r, hr, hru⟩ := hInv.statsExists y hy
      have hr2 : r ∈ (dupDB db uid up existing apFlag M).stats := hr
      obtain ⟨r2, hr2m, hr2u⟩ := updateStatsRow_exists_other
        (dupDB db uid up existing apFlag M) uid y.user_id ⟨r, hr2, hru⟩
      refine ⟨r2, hr2m, ?_⟩
      rw [bumpRef_user]
      exact hr2u

theorem aiMark_user (n : Nat) (f : StoredFile) : (aiMark n f).user_id = f.user_id := by
  unfold aiMark; split <;> rfl

theorem aiMark_size (n : Nat) (f : StoredFile) : (aiMark n f).size = f.size := by
  unfold aiMark; split <;> rfl

theorem aiMark_isref (n : Nat) (f : StoredFile) : (aiMark n f).is_reference = f.is_reference := by
  unfold aiMark; split <;> rfl

theorem mem_getOrCreateStats (db : DB) (uid : String) (r : StorageStats)
    (h : r ∈ (getOrCreateStats db uid).2.stats) :
    r ∈ db.stats ∨ r = ⟨uid, 0, 0, 0⟩ := by
  unfold getOrCreateStats at h
  cases hfind : db.stats.find? (fun s => decide (s.user_id = uid)) with
  | some s =>
      rw [hfind] at h
      exact Or.inl h
  | none =>
      rw [hfind] at h
      rcases List.mem_cons.mp h with rfl | h'
      · exact Or.inr rfl
      · exact Or.inl h'

theorem getOrCreateStats_stats_mono (db : DB) (uid : String) (r : StorageStats)
    (h : r ∈ db.stats) : r ∈ (getOrCreateStats db uid).2.stats := by
  unfold getOrCreateStats
  cases hfind : db.stats.find? (fun s => decide (s.user_id = uid)) with
  | some s => exact h
  | none => exact List.mem_cons_of_mem _ h

theorem fileCreate_canonical_eq (env : AIEnv) (db : DB) (uid : String) (up : Upload)
    (hdup : db.files.find? (fun f => decide (f.file_hash = calculate_file_hash up.content ∧
      f.user_id = uid ∧ f.is_reference = false)) = none)
    (hq : ¬ STORAGE_QUOTA_BYTES < (getOrCreateStats db uid).1.total_storage_used +
      up.content.length)
    (hlt : ∀ f ∈ db.files, f.id < db.nextId) :
    (fileCreate env db uid up).1 =
      canonDB db uid up (process_file env up.content up.ctype up.name) := by
  rw [fileCreate_new_canonical env db uid up hdup hq]
  simp only []
  unfold canonDB
  simp only []
  congr 1
  rw [getOrCreateStats_files, updateStatsRow_files]
  simp only []
  rw [List.map_cons]
  congr 1
  · show aiMark db.nextId (canonRow db uid up false) = canonRow db uid up true
    unfold aiMark
    rw [if_pos (show (canonRow db uid up false).id = db.nextId from rfl)]
    rfl
  · show db.files.map (aiMark db.nextId) = db.files
    have h3 : ∀ x ∈ db.files, aiMark db.nextId x = id x := by
      intro x hx
      simp only [id]
      unfold aiMark
      rw [if_neg (Nat.ne_of_lt (hlt x hx))]
    rw [List.map_congr_left h3, List.map_id]

/-- The new-canonical branch preserves the store invariant. -/
theorem inv_create_canonical_core (db : DB) (uid : String) (up : Upload) (md : MetaDict)
    (hInv : Inv db)
    (hnone : ∀ f ∈ db.files, ¬ (f.file_hash = calculate_file_hash up.content ∧
      f.user_id = uid ∧ f.is_reference = false)) :
    Inv (canonDB db uid up md) := by
  have hfiles : (canonDB db uid up md).files = canonRow db uid up true :: db.files := rfl
  have hmetas : (canonDB db uid up md).metas = canonMeta db md :: db.metas := by
    show (updateStatsRow _ uid).metas.cons _ = _
    rw [updateStatsRow_metas]
    show canonMeta db md :: (getOrCreateStats db uid).2.metas = _
    rw [getOrCreateStats_metas]
  have hblobs : (canonDB db uid up md).blobs = db.nextId :: db.blobs := by
    show (updateStatsRow _ uid).blobs = _
    rw [updateStatsRow_blobs]
    show db.nextId :: (getOrCreateStats db uid).2.blobs = _
    rw [getOrCreateStats_blobs]
  have hnext : (canonDB db uid up md).nextId = db.nextId + 1 := by
    show (updateStatsRow _ uid).nextId = _
    rw [updateStatsRow_nextId]
  have hcrid : (canonRow db uid up true).id = db.nextId := rfl
  have hcrpath : (canonRow db uid up true).path = db.nextId := rfl
  have hcrref : (canonRow db uid up true).is_reference = false := rfl
  have hcruser : (canonRow db uid up true).user_id = uid := rfl
  have horigLt : ∀ f ∈ db.files, f.is_reference = true →
      ∀ oid, f.original_file = some oid → oid < db.nextId := by
    intro f hf href oid hoid
    obtain ⟨c, hc, horig, _, _, _⟩ := hInv.refTarget f hf href
    rw [horig] at hoid
    injection hoid with hoid
    rw [← hoid]
    exact hInv.idsLt c hc
  refine { idsNodup := ?_, idsLt := ?_, pathLt := ?_, canonUnique := ?_, refTarget := ?_,
           canonNoTarget := ?_, refCount := ?_, sizeEq := ?_, blobIff := ?_,
           blobsNodup := ?_, canonPathInj := ?_, metasEmbNone := ?_, statsAcc := ?_,
           statsExists := ?_ }
  · rw [hfiles, List.map_cons, List.nodup_cons]
    refine ⟨?_, hInv.idsNodup⟩
    intro hmem2
    obtain ⟨y, hy, hyid⟩ := List.mem_map.mp hmem2
    exact absurd hyid (Nat.ne_of_lt (hInv.idsLt y hy))
  · intro f hf
    rw [hfiles] at hf
    rw [hnext]
    rcases List.mem_cons.mp hf with rfl | hf'
    · exact Nat.lt_succ_self _
    · exact Nat.lt_succ_of_lt (hInv.idsLt f hf')
  · intro f hf
    rw [hfiles] at hf
    rw [hnext]
    rcases List.mem_cons.mp hf with rfl | hf'
    · exact Nat.lt_succ_self _
    · exact Nat.lt_succ_of_lt (hInv.pathLt f hf')
  · intro f hf f2 hf2 hu hh hc1 hc2
    rw [hfiles] at hf hf2
    rcases List.mem_cons.mp hf with rfl | hf' <;> rcases List.mem_cons.mp hf2 with rfl | hf2'
    · rfl
    · exact absurd ⟨hh.symm, by rw [← hu]; rfl, hc2⟩ (hnone f2 hf2')
    · exact absurd ⟨hh, by rw [hu]; rfl, hc1⟩ (hnone f hf')
    · exact hInv.canonUnique f hf' f2 hf2' hu hh hc1 hc2
  · intro f hf href
    rw [hfiles] at hf ⊢
    rcases List.mem_cons.mp hf with rfl | hf'
    · rw [hcrref] at href
      exact absurd href (by simp)
    · obtain ⟨c, hc, horig, hcref, hcuser, hchash⟩ := hInv.refTarget f hf' href
      exact ⟨c, List.mem_cons_of_mem _ hc, horig, hcref, hcuser, hchash⟩
  · intro f hf hc
    rw [hfiles] at hf
    rcases List.mem_cons.mp hf with rfl | hf'
    · rfl
    · exact hInv.canonNoTarget f hf' hc
  · intro c hc hcref
    rw [hfiles] at hc ⊢
    rw [List.filter_cons]
    rcases List.mem_cons.mp hc with rfl | hc'
    · have hneg : decide ((canonRow db uid up true).is_reference = true ∧
          (canonRow db uid up true).original_file = some (canonRow db uid up true).id) =
          false := by
        rw [decide_eq_false_iff_not]
        intro hAnd
        rw [hcrref] at hAnd
        exact absurd hAnd.1 (by simp)
      rw [if_neg (by rw [hneg]; simp)]
      show (0 : Nat) = _
      have hempty : db.files.filter (fun f => decide (f.is_reference = true ∧
          f.original_file = some (canonRow db uid up true).id)) = [] := by
        rw [List.filter_eq_nil_iff]
        intro f hf hdec
        rw [decide_eq_true_eq] at hdec
        have := horigLt f hf hdec.1 _ hdec.2
        rw [hcrid] at this
        exact absurd rfl (Nat.ne_of_lt this)
      rw [hempty]
      rfl
    · have hneg : decide ((canonRow db uid up true).is_reference = true ∧
          (canonRow db uid up true).original_file = some c.id) = false := by
        rw [decide_eq_false_iff_not]
        intro hAnd
        rw [hcrref] at hAnd
        exact absurd hAnd.1 (by simp)
      rw [if_neg (by rw [hneg]; simp)]
      exact hInv.refCount c hc' hcref
  · intro f hf
    rw [hfiles] at hf
    rcases List.mem_cons.mp hf with rfl | hf'
    · rfl
    · exact hInv.sizeEq f hf'
  · intro b
    rw [hfiles, hblobs]
    constructor
    · intro hb
      rcases List.mem_cons.mp hb with rfl | hb'
      · exact ⟨canonRow db uid up true, List.mem_cons_self _ _, hcrref, hcrpath⟩
      · obtain ⟨c, hc, hcref, hcpath⟩ := (hInv.blobIff b).mp hb'
        exact ⟨c, List.mem_cons_of_mem _ hc, hcref, hcpath⟩
    · rintro ⟨c, hc, hcref, hcpath⟩
      rcases List.mem_cons.mp hc with rfl | hc'
      · rw [hcrpath] at hcpath
        rw [← hcpath]
        exact List.mem_cons_self _ _
      · exact List.mem_cons_of_mem _ ((hInv.blobIff b).mpr ⟨c, hc', hcref, hcpath⟩)
  · rw [hblobs, List.nodup_cons]
    refine ⟨?_, hInv.blobsNodup⟩
    intro hmem2
    obtain ⟨c, hc, hcref, hcpath⟩ := (hInv.blobIff db.nextId).mp hmem2
    exact absurd hcpath (Nat.ne_of_lt (hInv.pathLt c hc))
  · intro f hf f2 hf2 hc1 hc2 hp
    rw [hfiles] at hf hf2
    rcases List.mem_cons.mp hf with rfl | hf' <;> rcases List.mem_cons.mp hf2 with rfl | hf2'
    · rfl
    · rw [hcrpath] at hp
      exact absurd hp.symm (Nat.ne_of_lt (hInv.pathLt f2 hf2'))
    · rw [hcrpath] at hp
      exact absurd hp (Nat.ne_of_lt (hInv.pathLt f hf'))
    · exact hInv.canonPathInj f hf' f2 hf2' hc1 hc2 hp
  · intro m hm
    rw [hmetas] at hm
    rcases List.mem_cons.mp hm with rfl | hm'
    · rfl
    · exact hInv.metasEmbNone m hm'
  · intro r hr
    have hr2 : r ∈ (updateStatsRow { (getOrCreateStats db uid).2 with files := canonRow db uid up false :: (getOrCreateStats db uid).2.files, blobs := db.nextId :: (getOrCreateStats db uid).2.blobs, nextId := db.nextId + 1 } uid).stats := hr
    rcases mem_updateStatsRow_stats _ uid r hr2 with heq | ⟨hrold, hrne⟩
    · rw [heq, computeStats_user, hfiles]
      show computeStats uid (canonRow db uid up false :: (getOrCreateStats db uid).2.files) =
        computeStats uid (canonRow db uid up true :: db.files)
      rw [getOrCreateStats_files]
      have hlist : (canonRow db uid up false :: db.files).map (aiMark db.nextId) =
          canonRow db uid up true :: db.files := by
        rw [List.map_cons]
        congr 1
        · unfold aiMark
          rw [if_pos (show (canonRow db uid up false).id = db.nextId from rfl)]
          rfl
        · have h3 : ∀ x ∈ db.files, aiMark db.nextId x = id x := by
            intro x hx
            simp only [id]
            unfold aiMark
            rw [if_neg (Nat.ne_of_lt (hInv.idsLt x hx))]
          rw [List.map_congr_left h3, List.map_id]
      rw [← hlist]
      exact (computeStats_map uid _ _ (aiMark_user _) (aiMark_size _) (aiMark_isref _)).symm
    · have hrdb : r ∈ db.stats := by
        rcases mem_getOrCreateStats db uid r hrold with h | h
        · exact h
        · exact absurd (by rw [h]) hrne
      have hold := hInv.statsAcc r hrdb
      rw [hfiles]
      rw [computeStats_cons_ne r.user_id _ _ (by rw [hcruser]; exact fun h => hrne h.symm)]
      exact hold
  · intro f hf
    rw [hfiles] at hf
    rcases List.mem_cons.mp hf with rfl | hf'
    · obtain ⟨r, hr, hru⟩ := updateStatsRow_exists_self { (getOrCreateStats db uid).2 with files := canonRow db uid up false :: (getOrCreateStats db uid).2.files, blobs := db.nextId :: (getOrCreateStats db uid).2.blobs, nextId := db.nextId + 1 } uid
      exact ⟨r, hr, hru⟩
    · obtain ⟨r, hr, hru⟩ := hInv.statsExists f hf'
      obtain ⟨r2, hr2m, hr2u⟩ := updateStatsRow_exists_other
        { (getOrCreateStats db uid).2 with files := canonRow db uid up false :: (getOrCreateStats db uid).2.files, blobs := db.nextId :: (getOrCreateStats db uid).2.blobs, nextId := db.nextId + 1 } uid f.user_id
        ⟨r, getOrCreateStats_stats_mono db uid r hr, hru⟩
      exact ⟨r2, hr2m, hr2u⟩

theorem decRef_id (oid : Nat) (f : StoredFile) : (decRef oid f).id = f.id := by
  unfold decRef; split <;> rfl

theorem decRef_path (oid : Nat) (f : StoredFile) : (decRef oid f).path = f.path := by
  unfold decRef; split <;> rfl

theorem decRef_user (oid : Nat) (f : StoredFile) : (decRef oid f).user_id = f.user_id := by
  unfold decRef; split <;> rfl

theorem decRef_hash (oid : Nat) (f : StoredFile) : (decRef oid f).file_hash = f.file_hash := by
  unfold decRef; split <;> rfl

theorem decRef_isref (oid : Nat) (f : StoredFile) :
    (decRef oid f).is_reference = f.is_reference := by
  unfold decRef; split <;> rfl

theorem decRef_orig (oid : Nat) (f : StoredFile) :
    (decRef oid f).original_file = f.original_file := by
  unfold decRef; split <;> rfl

theorem decRef_size (oid : Nat) (f : StoredFile) : (decRef oid f).size = f.size := by
  unfold decRef; split <;> rfl

theorem decRef_rc (oid : Nat) (f : StoredFile) : (decRef oid f).reference_count =
    (if f.id = oid then f.reference_count - 1 else f.reference_count) := by
  unfold decRef; split <;> rfl

theorem fileDestroy_not_found (db : DB) (uid : String) (fid : Nat)
    (h : db.files.find? (fun f => decide (f.id = fid)) = none) :
    fileDestroy db uid fid = (db, .notFound) := by
  unfold fileDestroy
  rw [h]

theorem fileDestroy_unauthorized (db : DB) (uid : String) (fid : Nat) (inst : StoredFile)
    (hfind : db.files.find? (fun f => decide (f.id = fid)) = some inst)
    (hu : inst.user_id ≠ uid) :
    fileDestroy db uid fid = (db, .unauthorized) := by
  unfold fileDestroy
  rw [hfind]
  simp only []
  rw [if_pos hu]

theorem fileDestroy_referenced (db : DB) (uid : String) (fid : Nat) (inst : StoredFile)
    (hfind : db.files.find? (fun f => decide (f.id = fid)) = some inst)
    (hu : inst.user_id = uid) (hcanon : inst.is_reference = false)
    (hrc : 0 < inst.reference_count) :
    fileDestroy db uid fid = (db, .referencedError) := by
  unfold fileDestroy
  rw [hfind]
  simp only []
  rw [if_neg (show ¬ inst.user_id ≠ uid from fun h => h hu)]
  rw [if_neg (show ¬ inst.is_reference = true by rw [hcanon]; simp)]
  rw [if_pos hrc]

theorem fileDestroy_ref_eq (db : DB) (uid : String) (fid : Nat) (inst : StoredFile)
    (oid : Nat)
    (hfind : db.files.find? (fun f => decide (f.id = fid)) = some inst)
    (hu : inst.user_id = uid) (href : inst.is_reference = true)
    (horig : inst.original_file = some oid) :
    fileDestroy db uid fid =
      (updateStatsRow
        { db with
          files := (db.files.map (decRef oid)).filter
            (fun f => decide (¬ (f.id = fid ∨ f.original_file = some fid))),
          metas := db.metas.filter (fun m =>
            ((db.files.map (decRef oid)).filter
              (fun f => decide (¬ (f.id = fid ∨ f.original_file = some fid)))).any
              (fun f => decide (f.id = m.file))) } uid,
       .deleted false) := by
  unfold fileDestroy
  rw [hfind]
  simp only []
  rw [if_neg (show ¬ inst.user_id ≠ uid from fun h => h hu)]
  rw [if_pos href, horig]
  rfl

theorem fileDestroy_canonical_eq (db : DB) (uid : String) (fid : Nat) (inst : StoredFile)
    (hfind : db.files.find? (fun f => decide (f.id = fid)) = some inst)
    (hu : inst.user_id = uid) (hcanon : inst.is_reference = false)
    (hrc : ¬ 0 < inst.reference_count) :
    fileDestroy db uid fid =
      (updateStatsRow
        { db with
          files := db.files.filter
            (fun f => decide (¬ (f.id = fid ∨ f.original_file = some fid))),
          metas := db.metas.filter (fun m =>
            (db.files.filter
              (fun f => decide (¬ (f.id = fid ∨ f.original_file = some fid)))).any
              (fun f => decide (f.id = m.file))),
          blobs := db.blobs.erase inst.path } uid,
       .deleted (decide (inst.path ∈ db.blobs))) := by
  unfold fileDestroy
  rw [hfind]
  simp only []
  rw [if_neg (show ¬ inst.user_id ≠ uid from fun h => h hu)]
  rw [if_neg (show ¬ inst.is_reference = true by rw [hcanon]; simp)]
  rw [if_neg hrc]

/-- The reference-delete branch preserves the store invariant. -/
theorem inv_destroy_ref_core (db : DB) (uid : String) (fid oid : Nat) (inst : StoredFile)
    (hInv : Inv db) (hinstmem : inst ∈ db.files) (hinstid : inst.id = fid)
    (hu : inst.user_id = uid) (href : inst.is_reference = true)
    (horig : inst.original_file = some oid)
    (M : List FileMetadata) (hM : ∀ m ∈ M, m ∈ db.metas) :
    Inv (updateStatsRow { db with files := (db.files.map (decRef oid)).filter (fun f => decide (¬ (f.id = fid ∨ f.original_file = some fid))), metas := M } uid) := by
  have hFnodup : db.files.Nodup := hInv.idsNodup.of_map
  have hinj : ∀ a ∈ db.files, ∀ b ∈ db.files, a.id = b.id → a = b :=
    fun a ha b hb hab => List.inj_on_of_nodup_map hInv.idsNodup ha hb hab
  have hNoRef : ∀ x ∈ db.files, ¬ x.original_file = some fid := by
    intro x hx hxo
    rcases Bool.eq_false_or_eq_true x.is_reference with hxr | hxr
    · obtain ⟨c, hc, horigx, hcref, _, _⟩ := hInv.refTarget x hx hxr
      rw [horigx] at hxo
      injection hxo with hcid
      have hci : c = inst := hinj c hc inst hinstmem (by rw [hcid, hinstid])
      rw [hci, href] at hcref
      exact absurd hcref (by simp)
    · rw [hInv.canonNoTarget x hx hxr] at hxo
      exact Option.noConfusion hxo
  have hfiles2 : (db.files.map (decRef oid)).filter
      (fun f => decide (¬ (f.id = fid ∨ f.original_file = some fid))) =
      (db.files.filter (fun f => decide (¬ f.id = fid))).map (decRef oid) := by
    rw [List.filter_map]
    congr 1
    apply List.filter_congr
    intro x hx
    show decide (¬ ((decRef oid x).id = fid ∨ (decRef oid x).original_file = some fid)) = _
    rw [decRef_id, decRef_orig]
    simp [hNoRef x hx]
  have hsingle : db.files.filter (fun x => decide (x.id = fid)) = [inst] := by
    apply nodup_all_eq_singleton _ inst (hFnodup.filter _)
    · exact List.ne_nil_of_mem (List.mem_filter.mpr ⟨hinstmem, by simp [hinstid]⟩)
    · intro x hx
      obtain ⟨hxF, hxid⟩ := List.mem_filter.mp hx
      rw [decide_eq_true_eq] at hxid
      exact hinj x hxF inst hinstmem (by rw [hxid, hinstid])
  have hcount : ∀ (pT : StoredFile → Bool),
      ((db.files.filter (fun f => decide (¬ f.id = fid))).filter pT).length +
        ([inst].filter pT).length = (db.files.filter pT).length := by
    intro pT
    have hpart := length_filter_partition db.files pT (fun f => decide (¬ f.id = fid))
    have hnotq : db.files.filter (fun x => !(decide (¬ x.id = fid))) =
        db.files.filter (fun x => decide (x.id = fid)) := by
      apply List.filter_congr
      intro x _
      simp [decide_not]
    rw [hnotq, hsingle] at hpart
    exact hpart
  have hc0 : ∃ c0 ∈ db.files, c0.id = oid ∧ c0.is_reference = false := by
    obtain ⟨c, hc, horigx, hcref, _, _⟩ := hInv.refTarget inst hinstmem href
    rw [horig] at horigx
    injection horigx with hcid
    exact ⟨c, hc, hcid.symm, hcref⟩
  rw [hfiles2]
  have hfiles : (updateStatsRow { db with files := (db.files.filter (fun f => decide (¬ f.id = fid))).map (decRef oid), metas := M } uid).files =
      (db.files.filter (fun f => decide (¬ f.id = fid))).map (decRef oid) := by
    rw [updateStatsRow_files]
  have hmetas : (updateStatsRow { db with files := (db.files.filter (fun f => decide (¬ f.id = fid))).map (decRef oid), metas := M } uid).metas = M := by
    rw [updateStatsRow_metas]
  have hblobs : (updateStatsRow { db with files := (db.files.filter (fun f => decide (¬ f.id = fid))).map (decRef oid), metas := M } uid).blobs = db.blobs := by
    rw [updateStatsRow_blobs]
  have hnext : (updateStatsRow { db with files := (db.files.filter (fun f => decide (¬ f.id = fid))).map (decRef oid), metas := M } uid).nextId = db.nextId := by
    rw [updateStatsRow_nextId]
  have hmemF2 : ∀ x, x ∈ (db.files.filter (fun f => decide (¬ f.id = fid))).map (decRef oid) →
      ∃ y, y ∈ db.files ∧ ¬ y.id = fid ∧ decRef oid y = x := by
    intro x hx
    obtain ⟨y, hy, hxy⟩ := List.mem_map.mp hx
    obtain ⟨hyF, hyid⟩ := List.mem_filter.mp hy
    rw [decide_eq_true_eq] at hyid
    exact ⟨y, hyF, hyid, hxy⟩
  have hmemF2' : ∀ y ∈ db.files, ¬ y.id = fid →
      decRef oid y ∈ (db.files.filter (fun f => decide (¬ f.id = fid))).map (decRef oid) := by
    intro y hy hyid
    exact List.mem_map_of_mem _ (List.mem_filter.mpr ⟨hy, by simp [hyid]⟩)
  refine { idsNodup := ?_, idsLt := ?_, pathLt := ?_, canonUnique := ?_, refTarget := ?_,
           canonNoTarget := ?_, refCount := ?_, sizeEq := ?_, blobIff := ?_,
           blobsNodup := ?_, canonPathInj := ?_, metasEmbNone := ?_, statsAcc := ?_,
           statsExists := ?_ }
  · rw [hfiles, List.map_map]
    rw [show ((fun f : StoredFile => f.id) ∘ decRef oid) = (fun f : StoredFile => f.id) from
      funext (fun f => decRef_id _ f)]
    exact List.Nodup.sublist
      (List.Sublist.map (fun f => f.id) (List.filter_sublist db.files)) hInv.idsNodup
  · intro f hf
    rw [hfiles] at hf
    rw [hnext]
    obtain ⟨y, hyF, _, rfl⟩ := hmemF2 f hf
    rw [decRef_id]
    exact hInv.idsLt y hyF
  · intro f hf
    rw [hfiles] at hf
    rw [hnext]
    obtain ⟨y, hyF, _, rfl⟩ := hmemF2 f hf
    rw [decRef_path]
    exact hInv.pathLt y hyF
  · intro f hf f2 hf2 hus hh hc1 hc2
    rw [hfiles] at hf hf2
    obtain ⟨y1, hy1, _, rfl⟩ := hmemF2 f hf
    obtain ⟨y2, hy2, _, rfl⟩ := hmemF2 f2 hf2
    rw [decRef_user, decRef_user] at hus
    rw [decRef_hash, decRef_hash] at hh
    rw [decRef_isref] at hc1 hc2
    rw [hInv.canonUnique y1 hy1 y2 hy2 hus hh hc1 hc2]
  · intro f hf hfr
    rw [hfiles] at hf ⊢
    obtain ⟨y, hyF, hyid, rfl⟩ := hmemF2 f hf
    rw [decRef_isref] at hfr
    obtain ⟨c, hc, horigy, hcref, hcuser, hchash⟩ := hInv.refTarget y hyF hfr
    have hcid : ¬ c.id = fid := by
      intro hcid
      have hci : c = inst := hinj c hc inst hinstmem (by rw [hcid, hinstid])
      rw [hci, href] at hcref
      exact absurd hcref (by simp)
    refine ⟨decRef oid c, hmemF2' c hc hcid, ?_, ?_, ?_, ?_⟩
    · rw [decRef_orig, decRef_id]
      exact horigy
    · rw [decRef_isref]
      exact hcref
    · rw [decRef_user, decRef_user]
      exact hcuser
    · rw [decRef_hash, decRef_hash]
      exact hchash
  · intro f hf hfc
    rw [hfiles] at hf
    obtain ⟨y, hyF, _, rfl⟩ := hmemF2 f hf
    rw [decRef_isref] at hfc
    rw [decRef_orig]
    exact hInv.canonNoTarget y hyF hfc
  · intro c hc hcc
    rw [hfiles] at hc ⊢
    obtain ⟨y, hyF, hyid, rfl⟩ := hmemF2 c hc
    rw [decRef_isref] at hcc
    have hpred : (fun f : StoredFile => decide (f.is_reference = true ∧
        f.original_file = some (decRef oid y).id)) =
        (fun f : StoredFile => decide (f.is_reference = true ∧
          f.original_file = some y.id)) := by
      funext f
      rw [decRef_id]
    rw [hpred]
    have hfm : (((db.files.filter (fun f => decide (¬ f.id = fid))).map (decRef oid)).filter
        (fun f => decide (f.is_reference = true ∧ f.original_file = some y.id))).length =
        ((db.files.filter (fun f => decide (¬ f.id = fid))).filter
          (fun f => decide (f.is_reference = true ∧ f.original_file = some y.id))).length := by
      rw [List.filter_map, List.length_map]
      congr 1
      apply List.filter_congr
      intro x _
      show decide ((decRef oid x).is_reference = true ∧
        (decRef oid x).original_file = some y.id) = _
      rw [decRef_isref, decRef_orig]
    rw [hfm]
    have hinstcount : ([inst].filter (fun f => decide (f.is_reference = true ∧
        f.original_file = some y.id))).length = (if oid = y.id then 1 else 0) := by
      rw [List.filter_cons]
      by_cases hoy : oid = y.id
      · rw [if_pos (by rw [decide_eq_true_eq]; exact ⟨href, by rw [horig, hoy]⟩),
          if_pos hoy]
        rfl
      · rw [if_neg ?hcnd, if_neg hoy]
        · rfl
        case hcnd =>
          intro hcd
          rw [decide_eq_true_eq] at hcd
          rw [horig] at hcd
          injection hcd.2 with h2
          exact hoy h2
    have hcnt := hcount (fun f => decide (f.is_reference = true ∧ f.original_file = some y.id))
    rw [hinstcount] at hcnt
    have hold := hInv.refCount y hyF hcc
    rw [decRef_rc]
    by_cases hyo : y.id = oid
    · rw [if_pos hyo]
      have hge : 1 ≤ y.reference_count := by
        rw [hold]
        have hmemf : inst ∈ db.files.filter (fun f => decide (f.is_reference = true ∧
            f.original_file = some y.id)) := by
          apply List.mem_filter.mpr
          refine ⟨hinstmem, ?_⟩
          rw [decide_eq_true_eq]
          exact ⟨href, by rw [horig, hyo]⟩
        exact List.length_pos_of_mem hmemf
      rw [if_pos hyo.symm] at hcnt
      omega
    · rw [if_neg hyo]
      rw [if_neg (fun h => hyo h.symm)] at hcnt
      omega
  · intro f hf
    rw [hfiles] at hf
    obtain ⟨y, hyF, _, rfl⟩ := hmemF2 f hf
    rw [decRef_size, decRef_hash]
    exact hInv.sizeEq y hyF
  · intro b
    rw [hfiles, hblobs]
    constructor
    · intro hb
      obtain ⟨c, hc, hcref, hcpath⟩ := (hInv.blobIff b).mp hb
      have hcid : ¬ c.id = fid := by
        intro hcid
        have hci : c = inst := hinj c hc inst hinstmem (by rw [hcid, hinstid])
        rw [hci, href] at hcref
        exact absurd hcref (by simp)
      refine ⟨decRef oid c, hmemF2' c hc hcid, ?_, ?_⟩
      · rw [decRef_isref]
        exact hcref
      · rw [decRef_path]
        exact hcpath
    · rintro ⟨c, hc, hcref, hcpath⟩
      obtain ⟨y, hyF, _, rfl⟩ := hmemF2 c hc
      rw [decRef_isref] at hcref
      rw [decRef_path] at hcpath
      exact (hInv.blobIff b).mpr ⟨y, hyF, hcref, hcpath⟩
  · rw [hblobs]
    exact hInv.blobsNodup
  · intro f hf f2 hf2 hc1 hc2 hp
    rw [hfiles] at hf hf2
    obtain ⟨y1, hy1, _, rfl⟩ := hmemF2 f hf
    obtain ⟨y2, hy2, _, rfl⟩ := hmemF2 f2 hf2
    rw [decRef_isref] at hc1 hc2
    rw [decRef_path, decRef_path] at hp
    rw [hInv.canonPathInj y1 hy1 y2 hy2 hc1 hc2 hp]
  · intro m hm
    rw [hmetas] at hm
    exact hInv.metasEmbNone m (hM m hm)
  · intro r hr
    rcases mem_updateStatsRow_stats _ uid r hr with heq | ⟨hrold, hrne⟩
    · rw [heq, computeStats_user, updateStatsRow_files]
    · have hold := hInv.statsAcc r hrold
      have hstep : computeStats r.user_id
          ((db.files.filter (fun f => decide (¬ f.id = fid))).map (decRef oid)) =
          computeStats r.user_id db.files := by
        rw [computeStats_map r.user_id _ _ (decRef_user _) (decRef_size _) (decRef_isref _)]
        apply computeStats_filter
        intro f hfF hfu
        rw [decide_eq_true_eq]
        intro hfid
        have hfi : f = inst := hinj f hfF inst hinstmem (by rw [hfid, hinstid])
        rw [hfi, hu] at hfu
        exact hrne hfu.symm
      rw [hfiles, hstep]
      exact hold
  · intro f hf
    rw [hfiles] at hf
    obtain ⟨y, hyF, _, rfl⟩ := hmemF2 f hf
    obtain ⟨r, hrm, hru⟩ := hInv.statsExists y hyF
    obtain ⟨r2, hr2m, hr2u⟩ := updateStatsRow_exists_other
      { db with files := (db.files.filter (fun f => decide (¬ f.id = fid))).map (decRef oid), metas := M }
      uid y.user_id ⟨r, hrm, hru⟩
    refine ⟨r2, hr2m, ?_⟩
    rw [decRef_user]
    exact hr2u

/-- The canonical-delete branch (zero references) preserves the store
invariant. -/
theorem inv_destroy_canonical_core (db : DB) (uid : String) (fid : Nat) (inst : StoredFile)
    (hInv : Inv db) (hinstmem : inst ∈ db.files) (hinstid : inst.id = fid)
    (hu : inst.user_id = uid) (hcanon : inst.is_reference = false)
    (hrc0 : inst.reference_count = 0)
    (M : List FileMetadata) (hM : ∀ m ∈ M, m ∈ db.metas) :
    Inv (updateStatsRow { db with files := db.files.filter (fun f => decide (¬ (f.id = fid ∨ f.original_file = some fid))), metas := M, blobs := db.blobs.erase inst.path } uid) := by
  have hinj : ∀ a ∈ db.files, ∀ b ∈ db.files, a.id = b.id → a = b :=
    fun a ha b hb hab => List.inj_on_of_nodup_map hInv.idsNodup ha hb hab
  have hcnt0 : (db.files.filter (fun f => decide (f.is_reference = true ∧
      f.original_file = some inst.id))).length = 0 := by
    rw [← hInv.refCount inst hinstmem hcanon, hrc0]
  have hnil : db.files.filter (fun f => decide (f.is_reference = true ∧
      f.original_file = some inst.id)) = [] := List.length_eq_zero.mp hcnt0
  have hNoRef : ∀ x ∈ db.files, ¬ x.original_file = some fid := by
    intro x hx hxo
    rcases Bool.eq_false_or_eq_true x.is_reference with hxr | hxr
    · have hxin : x ∈ db.files.filter (fun f => decide (f.is_reference = true ∧
          f.original_file = some inst.id)) := by
        apply List.mem_filter.mpr
        refine ⟨hx, ?_⟩
        rw [decide_eq_true_eq]
        exact ⟨hxr, by rw [hxo, hinstid]⟩
      rw [hnil] at hxin
      exact absurd hxin (List.not_mem_nil x)
    · rw [hInv.canonNoTarget x hx hxr] at hxo
      exact Option.noConfusion hxo
  have hfilter2 : db.files.filter (fun f => decide (¬ (f.id = fid ∨
      f.original_file = some fid))) = db.files.filter (fun f => decide (¬ f.id = fid)) := by
    apply List.filter_congr
    intro x hx
    simp [hNoRef x hx]
  have hsingle : db.files.filter (fun x => decide (x.id = fid)) = [inst] := by
    apply nodup_all_eq_singleton _ inst ((hInv.idsNodup.of_map).filter _)
    · exact List.ne_nil_of_mem (List.mem_filter.mpr ⟨hinstmem, by simp [hinstid]⟩)
    · intro x hx
      obtain ⟨hxF, hxid⟩ := List.mem_filter.mp hx
      rw [decide_eq_true_eq] at hxid
      exact hinj x hxF inst hinstmem (by rw [hxid, hinstid])
  have hcount : ∀ (pT : StoredFile → Bool),
      ((db.files.filter (fun f => decide (¬ f.id = fid))).filter pT).length +
        ([inst].filter pT).length = (db.files.filter pT).length := by
    intro pT
    have hpart := length_filter_partition db.files pT (fun f => decide (¬ f.id = fid))
    have hnotq : db.files.filter (fun x => !(decide (¬ x.id = fid))) =
        db.files.filter (fun x => decide (x.id = fid)) := by
      apply List.filter_congr
      intro x _
      simp [decide_not]
    rw [hnotq, hsingle] at hpart
    exact hpart
  rw [hfilter2]
  have hfiles : (updateStatsRow { db with files := db.files.filter (fun f => decide (¬ f.id = fid)), metas := M, blobs := db.blobs.erase inst.path } uid).files =
      db.files.filter (fun f => decide (¬ f.id = fid)) := by
    rw [updateStatsRow_files]
  have hmetas : (updateStatsRow { db with files := db.files.filter (fun f => decide (¬ f.id = fid)), metas := M, blobs := db.blobs.erase inst.path } uid).metas = M := by
    rw [updateStatsRow_metas]
  have hblobs : (updateStatsRow { db with files := db.files.filter (fun f => decide (¬ f.id = fid)), metas := M, blobs := db.blobs.erase inst.path } uid).blobs =
      db.blobs.erase inst.path := by
    rw [updateStatsRow_blobs]
  have hnext : (updateStatsRow { db with files := db.files.filter (fun f => decide (¬ f.id = fid)), metas := M, blobs := db.blobs.erase inst.path } uid).nextId = db.nextId := by
    rw [updateStatsRow_nextId]
  have hmemF2 : ∀ x, x ∈ db.files.filter (fun f => decide (¬ f.id = fid)) →
      x ∈ db.files ∧ ¬ x.id = fid := by
    intro x hx
    obtain ⟨hxF, hxid⟩ := List.mem_filter.mp hx
    rw [decide_eq_true_eq] at hxid
    exact ⟨hxF, hxid⟩
  have hmemF2' : ∀ y ∈ db.files, ¬ y.id = fid →
      y ∈ db.files.filter (fun f => decide (¬ f.id = fid)) := by
    intro y hy hyid
    exact List.mem_filter.mpr ⟨hy, by simp [hyid]⟩
  refine { idsNodup := ?_, idsLt := ?_, pathLt := ?_, canonUnique := ?_, refTarget := ?_,
           canonNoTarget := ?_, refCount := ?_, sizeEq := ?_, blobIff := ?_,
           blobsNodup := ?_, canonPathInj := ?_, metasEmbNone := ?_, statsAcc := ?_,
           statsExists := ?_ }
  · rw [hfiles]
    exact List.Nodup.sublist
      (List.Sublist.map (fun f => f.id) (List.filter_sublist db.files)) hInv.idsNodup
  · intro f hf
    rw [hfiles] at hf
    rw [hnext]
    exact hInv.idsLt f (hmemF2 f hf).1
  · intro f hf
    rw [hfiles] at hf
    rw [hnext]
    exact hInv.pathLt f (hmemF2 f hf).1
  · intro f hf f2 hf2 hus hh hc1 hc2
    rw [hfiles] at hf hf2
    exact hInv.canonUnique f (hmemF2 f hf).1 f2 (hmemF2 f2 hf2).1 hus hh hc1 hc2
  · intro f hf hfr
    rw [hfiles] at hf ⊢
    obtain ⟨hfF, hfid⟩ := hmemF2 f hf
    obtain ⟨c, hc, horigy, hcref, hcuser, hchash⟩ := hInv.refTarget f hfF hfr
    have hcid : ¬ c.id = fid := by
      intro hcid
      exact hNoRef f hfF (by rw [horigy, hcid])
    exact ⟨c, hmemF2' c hc hcid, horigy, hcref, hcuser, hchash⟩
  · intro f hf hfc
    rw [hfiles] at hf
    exact hInv.canonNoTarget f (hmemF2 f hf).1 hfc
  · intro c hc hcc
    rw [hfiles] at hc ⊢
    obtain ⟨hcF, hcid⟩ := hmemF2 c hc
    have hinstcount : ([inst].filter (fun f => decide (f.is_reference = true ∧
        f.original_file = some c.id))).length = 0 := by
      rw [List.filter_cons]
      rw [if_neg ?hcnd]
      · rfl
      case hcnd =>
        intro hcd
        rw [decide_eq_true_eq] at hcd
        rw [hcanon] at hcd
        exact absurd hcd.1 (by simp)
    have hcnt := hcount (fun f => decide (f.is_reference = true ∧
      f.original_file = some c.id))
    rw [hinstcount] at hcnt
    have hold := hInv.refCount c hcF hcc
    omega
  · intro f hf
    rw [hfiles] at hf
    exact hInv.sizeEq f (hmemF2 f hf).1
  · intro b
    rw [hfiles, hblobs]
    rw [List.Nodup.mem_erase_iff hInv.blobsNodup]
    constructor
    · rintro ⟨hbne, hb⟩
      obtain ⟨c, hc, hcref, hcpath⟩ := (hInv.blobIff b).mp hb
      have hcid : ¬ c.id = fid := by
        intro hcid
        have hci : c = inst := hinj c hc inst hinstmem (by rw [hcid, hinstid])
        rw [hci] at hcpath
        exact hbne hcpath.symm
      exact ⟨c, hmemF2' c hc hcid, hcref, hcpath⟩
    · rintro ⟨c, hc, hcref, hcpath⟩
      obtain ⟨hcF, hcid⟩ := hmemF2 c hc
      refine ⟨?_, (hInv.blobIff b).mpr ⟨c, hcF, hcref, hcpath⟩⟩
      intro hbe
      have hci : c = inst := hInv.canonPathInj c hcF inst hinstmem hcref hcanon
        (by rw [hcpath, hbe])
      rw [hci] at hcid
      exact hcid hinstid
  · rw [hblobs]
    exact hInv.blobsNodup.erase _
  · intro f hf f2 hf2 hc1 hc2 hp
    rw [hfiles] at hf hf2
    exact hInv.canonPathInj f (hmemF2 f hf).1 f2 (hmemF2 f2 hf2).1 hc1 hc2 hp
  · intro m hm
    rw [hmetas] at hm
    exact hInv.metasEmbNone m (hM m hm)
  · intro r hr
    rcases mem_updateStatsRow_stats _ uid r hr with heq | ⟨hrold, hrne⟩
    · rw [heq, computeStats_user, updateStatsRow_files]
    · have hold := hInv.statsAcc r hrold
      have hstep : computeStats r.user_id
          (db.files.filter (fun f => decide (¬ f.id = fid))) =
          computeStats r.user_id db.files := by
        apply computeStats_filter
        intro f hfF hfu
        rw [decide_eq_true_eq]
        intro hfid
        have hfi : f = inst := hinj f hfF inst hinstmem (by rw [hfid, hinstid])
        rw [hfi, hu] at hfu
        exact hrne hfu.symm
      rw [hfiles, hstep]
      exact hold
  · intro f hf
    rw [hfiles] at hf
    obtain ⟨hfF, _⟩ := hmemF2 f hf
    obtain ⟨r, hrm, hru⟩ := hInv.statsExists f hfF
    exact updateStatsRow_exists_other
      { db with files := db.files.filter (fun f => decide (¬ f.id = fid)), metas := M, blobs := db.blobs.erase inst.path }
      uid f.user_id ⟨r, hrm, hru⟩

/-- `get_or_create` of a stats row preserves the invariant. -/
theorem inv_getOrCreate (db : DB) (uid : String) (hInv : Inv db) :
    Inv (getOrCreateStats db uid).2 := by
  unfold getOrCreateStats
  cases hfind : db.stats.find? (fun s => decide (s.user_id = uid)) with
  | some s => exact hInv
  | none =>
      have hnouser : ∀ f ∈ db.files, ¬ f.user_id = uid := by
        intro f hf hfu
        obtain ⟨r, hr, hru⟩ := hInv.statsExists f hf
        have := List.find?_eq_none.mp hfind r hr
        rw [decide_eq_true_eq] at this
        rw [hfu] at hru
        exact this hru
      refine { idsNodup := hInv.idsNodup, idsLt := hInv.idsLt, pathLt := hInv.pathLt,
               canonUnique := hInv.canonUnique, refTarget := hInv.refTarget,
               canonNoTarget := hInv.canonNoTarget, refCount := hInv.refCount,
               sizeEq := hInv.sizeEq, blobIff := hInv.blobIff,
               blobsNodup := hInv.blobsNodup, canonPathInj := hInv.canonPathInj,
               metasEmbNone := hInv.metasEmbNone, statsAcc := ?_, statsExists := ?_ }
      · intro r hr
        rcases List.mem_cons.mp hr with rfl | hr'
        · exact (computeStats_empty_user uid db.files hnouser).symm
        · exact hInv.statsAcc r hr'
      · intro f hf
        obtain ⟨r, hr, hru⟩ := hInv.statsExists f hf
        exact ⟨r, List.mem_cons_of_mem _ hr, hru⟩

/-- `FileViewSet.create` preserves the invariant. -/
theorem inv_fileCreate (env : AIEnv) (db : DB) (uid : String) (up : Upload)
    (hInv : Inv db) : Inv (fileCreate env db uid up).1 := by
  cases hfind : db.files.find? (fun f => decide (f.file_hash = calculate_file_hash up.content ∧
      f.user_id = uid ∧ f.is_reference = false)) with
  | some existing =>
      have hmem := List.mem_of_find?_eq_some hfind
      have hpred := List.find?_some hfind
      rw [decide_eq_true_eq] at hpred
      obtain ⟨hhash, huser, hcanon⟩ := hpred
      have hid := hInv.idsLt existing hmem
      rw [fileCreate_dup_eq env db uid up existing hfind hid hInv.idsLt]
      cases hm : db.metas.find? (fun m => decide (m.file = existing.id)) with
      | some om =>
          apply inv_create_dup_core db uid up existing hInv hmem hhash huser hcanon true
          intro m hmm
          rcases List.mem_cons.mp hmm with rfl | hmm'
          · rfl
          · exact hInv.metasEmbNone m hmm'
      | none =>
          exact inv_create_dup_core db uid up existing hInv hmem hhash huser hcanon false
            db.metas hInv.metasEmbNone
  | none =>
      by_cases hq : STORAGE_QUOTA_BYTES <
          (getOrCreateStats db uid).1.total_storage_used + up.content.length
      · rw [fileCreate_quota_reject env db uid up hfind hq]
        exact inv_getOrCreate db uid hInv
      · rw [fileCreate_canonical_eq env db uid up hfind hq hInv.idsLt]
        apply inv_create_canonical_core db uid up _ hInv
        intro f hf hand
        have := List.find?_eq_none.mp hfind f hf
        rw [decide_eq_true_eq] at this
        exact this hand

/-- `FileViewSet.destroy` preserves the invariant. -/
theorem inv_fileDestroy (db : DB) (uid : String) (fid : Nat) (hInv : Inv db) :
    Inv (fileDestroy db uid fid).1 := by
  cases hfind : db.files.find? (fun f => decide (f.id = fid)) with
  | none =>
      rw [fileDestroy_not_found db uid fid hfind]
      exact hInv
  | some inst =>
      have hinstmem := List.mem_of_find?_eq_some hfind
      have hinstid : inst.id = fid := by
        have := List.find?_some hfind
        rwa [decide_eq_true_eq] at this
      by_cases huser : inst.user_id = uid
      case neg =>
        rw [fileDestroy_unauthorized db uid fid inst hfind huser]
        exact hInv
      case pos =>
        rcases Bool.eq_false_or_eq_true inst.is_reference with href | hcanon
        · obtain ⟨c, hc, horigx, _, _, _⟩ := hInv.refTarget inst hinstmem href
          rw [fileDestroy_ref_eq db uid fid inst c.id hfind huser href horigx]
          apply inv_destroy_ref_core db uid fid c.id inst hInv hinstmem hinstid huser href
            horigx
          intro m hm
          exact List.mem_of_mem_filter hm
        · by_cases hrc : 0 < inst.reference_count
          · rw [fileDestroy_referenced db uid fid inst hfind huser hcanon hrc]
            exact hInv
          · rw [fileDestroy_canonical_eq db uid fid inst hfind huser hcanon hrc]
            apply inv_destroy_canonical_core db uid fid inst hInv hinstmem hinstid huser
              hcanon (by omega)
            intro m hm
            exact List.mem_of_mem_filter hm

/-- Every reachable state satisfies the store invariant. -/
theorem inv_of_reachable {db : DB} (h : Reachable db) : Inv db := by
  induction h with
  | init => exact inv_empty
  | create env uid up _ ih => exact inv_fileCreate env _ uid up ih
  | destroy uid fid _ ih => exact inv_fileDestroy _ uid fid ih

/-! ## Claim C3: the dedup/reference-count invariant -/

/-- C3. In every reachable state, for every owner and content hash with at
least one row, exactly one row is non-reference, every other row of the
group is a reference resolving to it, and its `reference_count` equals the
number of those references. -/
theorem C3_dedup_invariant (db : DB) (hre : Reachable db) (uid : String) (h : List Nat)
    (hne : db.files.filter (fun f => decide (f.user_id = uid ∧ f.file_hash = h)) ≠ []) :
    ∃ c, db.files.filter (fun f => decide (f.user_id = uid ∧ f.file_hash = h ∧
        f.is_reference = false)) = [c] ∧
      (∀ f ∈ db.files, f.user_id = uid → f.file_hash = h → f.is_reference = true →
        f.original_file = some c.id) ∧
      c.reference_count = (db.files.filter (fun f => decide (f.user_id = uid ∧
        f.file_hash = h ∧ f.is_reference = true))).length := by
  have hInv := inv_of_reachable hre
  have hinj : ∀ a ∈ db.files, ∀ b ∈ db.files, a.id = b.id → a = b :=
    fun a ha b hb hab => List.inj_on_of_nodup_map hInv.idsNodup ha hb hab
  obtain ⟨x, hx⟩ := List.exists_mem_of_ne_nil _ hne
  obtain ⟨hxF, hxprop⟩ := List.mem_filter.mp hx
  rw [decide_eq_true_eq] at hxprop
  obtain ⟨hxu, hxh⟩ := hxprop
  have hex : ∃ c ∈ db.files, c.user_id = uid ∧ c.file_hash = h ∧ c.is_reference = false := by
    rcases Bool.eq_false_or_eq_true x.is_reference with hxr | hxr
    · obtain ⟨c, hc, _, hcref, hcu, hch⟩ := hInv.refTarget x hxF hxr
      exact ⟨c, hc, by rw [hcu, hxu], by rw [hch, hxh], hcref⟩
    · exact ⟨x, hxF, hxu, hxh, hxr⟩
  obtain ⟨c, hcF, hcu, hch, hcr⟩ := hex
  have hrefpoint : ∀ f ∈ db.files, f.user_id = uid → f.file_hash = h →
      f.is_reference = true → f.original_file = some c.id := by
    intro f hf hfu hfh hfr
    obtain ⟨c2, hc2, horig, hc2ref, hc2u, hc2h⟩ := hInv.refTarget f hf hfr
    have : c2 = c := hInv.canonUnique c2 hc2 c hcF (by rw [hc2u, hfu, hcu])
      (by rw [hc2h, hfh, hch]) hc2ref hcr
    rw [horig, this]
  refine ⟨c, ?_, hrefpoint, ?_⟩
  · apply nodup_all_eq_singleton _ c ((hInv.idsNodup.of_map).filter _)
    · apply List.ne_nil_of_mem (a := c)
      apply List.mem_filter.mpr
      refine ⟨hcF, ?_⟩
      rw [decide_eq_true_eq]
      exact ⟨hcu, hch, hcr⟩
    · intro y hy
      obtain ⟨hyF, hyprop⟩ := List.mem_filter.mp hy
      rw [decide_eq_true_eq] at hyprop
      exact hInv.canonUnique y hyF c hcF (by rw [hyprop.1, hcu]) (by rw [hyprop.2.1, hch])
        hyprop.2.2 hcr
  · rw [hInv.refCount c hcF hcr]
    congr 1
    apply List.filter_congr
    intro f hf
    rw [decide_eq_decide]
    constructor
    · rintro ⟨hfr, hforig⟩
      obtain ⟨c2, hc2, horig, hc2ref, hc2u, hc2h⟩ := hInv.refTarget f hf hfr
      rw [horig] at hforig
      injection hforig with hcid
      have : c2 = c := hinj c2 hc2 c hcF hcid
      rw [this] at hc2u hc2h
      exact ⟨by rw [← hc2u, hcu], by rw [← hc2h, hch], hfr⟩
    · rintro ⟨hfu, hfh, hfr⟩
      exact ⟨hfr, hrefpoint f hf hfu hfh hfr⟩

/-! ## Claim C4: quota enforcement on new canonical uploads -/

/-- C4. In every reachable state, an upload with no existing canonical file
for that owner is rejected exactly when the owner's recorded
`total_storage_used` plus the new file's size exceeds the quota; on
rejection no file row, metadata row or blob is created and the owner's
stats values are unchanged. -/
theorem C4_quota_enforced (env : AIEnv) (db : DB) (uid : String) (up : Upload)
    (hre : Reachable db)
    (hdup : db.files.find? (fun f => decide (f.file_hash = calculate_file_hash up.content ∧
      f.user_id = uid ∧ f.is_reference = false)) = none) :
    ((fileCreate env db uid up).2 = .quotaExceeded ↔
      STORAGE_QUOTA_BYTES < (computeStats uid db.files).total_storage_used +
        up.content.length) ∧
    ((fileCreate env db uid up).2 = .quotaExceeded →
      (fileCreate env db uid up).1.files = db.files ∧
      (fileCreate env db uid up).1.metas = db.metas ∧
      (fileCreate env db uid up).1.blobs = db.blobs ∧
      ((fileCreate env db uid up).1.stats.find? (fun s => decide (s.user_id = uid))).getD
          ⟨uid, 0, 0, 0⟩ =
        (db.stats.find? (fun s => decide (s.user_id = uid))).getD ⟨uid, 0, 0, 0⟩) := by
  have hInv := inv_of_reachable hre
  have hgc_total : (getOrCreateStats db uid).1.total_storage_used =
      (computeStats uid db.files).total_storage_used := by
    unfold getOrCreateStats
    cases hfindr : db.stats.find? (fun s => decide (s.user_id = uid)) with
    | some r =>
        have hrmem := List.mem_of_find?_eq_some hfindr
        have hru : r.user_id = uid := by
          have := List.find?_some hfindr
          rwa [decide_eq_true_eq] at this
        have := hInv.statsAcc r hrmem
        rw [hru] at this
        rw [this]
    | none =>
        have hnouser : ∀ f ∈ db.files, ¬ f.user_id = uid := by
          intro f hf hfu
          obtain ⟨r, hr, hru⟩ := hInv.statsExists f hf
          have := List.find?_eq_none.mp hfindr r hr
          rw [decide_eq_true_eq] at this
          rw [hfu] at hru
          exact this hru
        rw [computeStats_empty_user uid db.files hnouser]
  by_cases hq : STORAGE_QUOTA_BYTES <
      (getOrCreateStats db uid).1.total_storage_used + up.content.length
  · rw [fileCreate_quota_reject env db uid up hdup hq]
    constructor
    · constructor
      · intro _
        rw [← hgc_total]
        exact hq
      · intro _
        rfl
    · intro _
      refine ⟨getOrCreateStats_files db uid, getOrCreateStats_metas db uid,
        getOrCreateStats_blobs db uid, ?_⟩
      show ((getOrCreateStats db uid).2.stats.find?
        (fun s => decide (s.user_id = uid))).getD ⟨uid, 0, 0, 0⟩ = _
      cases hfindr : db.stats.find? (fun s => decide (s.user_id = uid)) with
      | some r =>
          have hgc2 : (getOrCreateStats db uid).2 = db := by
            unfold getOrCreateStats
            rw [hfindr]
          rw [hgc2, hfindr]
      | none =>
          have hgc2 : (getOrCreateStats db uid).2.stats = ⟨uid, 0, 0, 0⟩ :: db.stats := by
            unfold getOrCreateStats
            rw [hfindr]
          rw [hgc2, List.find?_cons_of_pos _ (by simp)]
          rfl
  · rw [fileCreate_new_canonical env db uid up hdup hq]
    constructor
    · constructor
      · intro hcontra
        exact absurd hcontra (by simp)
      · intro hcontra
        rw [← hgc_total] at hcontra
        exact absurd hcontra hq
    · intro hcontra
      exact absurd hcontra (by simp)

/-! ## Claim C5: canonical delete refuses while referenced, else releases blob -/

/-- C5. In every reachable state, deleting a canonical file fails with the
referenced-file error and leaves the whole state unchanged while its
`reference_count` is positive; with count zero the delete succeeds, removes
exactly one copy of its blob path from disk, and drops the row. -/
theorem C5_delete_canonical (db : DB) (uid : String) (fid : Nat) (inst : StoredFile)
    (hre : Reachable db)
    (hfind : db.files.find? (fun f => decide (f.id = fid)) = some inst)
    (huser : inst.user_id = uid) (hcanon : inst.is_reference = false) :
    (0 < inst.reference_count →
      fileDestroy db uid fid = (db, .referencedError)) ∧
    (inst.reference_count = 0 →
      (fileDestroy db uid fid).2 = .deleted true ∧
      (fileDestroy db uid fid).1.blobs = db.blobs.erase inst.path ∧
      inst.path ∈ db.blobs ∧
      ¬ inst.path ∈ (fileDestroy db uid fid).1.blobs ∧
      (∀ f ∈ (fileDestroy db uid fid).1.files, ¬ f.id = fid)) := by
  have hInv := inv_of_reachable hre
  have hmem := List.mem_of_find?_eq_some hfind
  constructor
  · intro hrc
    exact fileDestroy_referenced db uid fid inst hfind huser hcanon hrc
  · intro hrc0
    have hpathmem : inst.path ∈ db.blobs :=
      (hInv.blobIff inst.path).mpr ⟨inst, hmem, hcanon, rfl⟩
    rw [fileDestroy_canonical_eq db uid fid inst hfind huser hcanon (by omega)]
    refine ⟨?_, ?_, hpathmem, ?_, ?_⟩
    · simp [hpathmem]
    · rw [updateStatsRow_blobs]
    · intro hmem2
      rw [updateStatsRow_blobs] at hmem2
      exact ((List.Nodup.mem_erase_iff hInv.blobsNodup).mp hmem2).1 rfl
    · intro f hf
      rw [updateStatsRow_files] at hf
      obtain ⟨_, hfp⟩ := List.mem_filter.mp hf
      rw [decide_eq_true_eq] at hfp
      exact fun hid => hfp (Or.inl hid)

/-! ## Claim C6: duplicate upload becomes a reference with copied metadata -/

theorem find?_id_map_bump (l : List StoredFile) (eid n : Nat) :
    (l.map (bumpRef eid)).find? (fun f => decide (f.id = n)) =
      (l.find? (fun f => decide (f.id = n))).map (bumpRef eid) := by
  induction l with
  | nil => rfl
  | cons a t ih =>
      rw [List.map_cons]
      have hb := bumpRef_id eid a
      by_cases ha : a.id = n
      · rw [List.find?_cons_of_pos _ (by simp only [decide_eq_true_eq]; rw [hb]; exact ha),
          List.find?_cons_of_pos _ (by simp [ha])]
        rfl
      · rw [List.find?_cons_of_neg _ (by simp only [decide_eq_true_eq]; rw [hb]; exact ha),
          List.find?_cons_of_neg _ (by simp [ha])]
        exact ih

theorem find?_id_self (l : List StoredFile) (hn : (l.map (fun f => f.id)).Nodup)
    (x : StoredFile) (hx : x ∈ l) :
    l.find? (fun f => decide (f.id = x.id)) = some x := by
  induction l with
  | nil => exact absurd hx (List.not_mem_nil x)
  | cons a t ih =>
      rw [List.map_cons, List.nodup_cons] at hn
      rcases List.mem_cons.mp hx with rfl | hx'
      · rw [List.find?_cons_of_pos _ (by simp)]
      · by_cases ha : a.id = x.id
        · exact absurd (ha ▸ List.mem_map_of_mem (fun f => f.id) hx') hn.1
        · rw [List.find?_cons_of_neg _ (by simp [ha])]
          exact ih hn.2 hx'

/-- C6. In every reachable state, uploading content whose hash matches an
existing canonical file of the same owner creates a reference to it with
the same size, increments the canonical's `reference_count` by one, copies
the canonical's metadata verbatim onto the new file (marking it processed)
when the canonical has metadata, and never consults the enrichment
environment. -/
theorem C6_duplicate_reference (env : AIEnv) (db : DB) (uid : String) (up : Upload)
    (existing : StoredFile) (hre : Reachable db)
    (hfind : db.files.find? (fun f => decide (f.file_hash = calculate_file_hash up.content ∧
      f.user_id = uid ∧ f.is_reference = false)) = some existing) :
    (fileCreate env db uid up).2 = .created db.nextId ∧
    (∃ nf ∈ (fileCreate env db uid up).1.files, nf.id = db.nextId ∧
      nf.is_reference = true ∧ nf.original_file = some existing.id ∧
      nf.size = existing.size ∧ nf.size = up.content.length) ∧
    (((fileCreate env db uid up).1.files.find? (fun f => decide (f.id = existing.id))).map
      (fun f => f.reference_count)) = some (existing.reference_count + 1) ∧
    (∀ om, db.metas.find? (fun m => decide (m.file = existing.id)) = some om →
      (fileCreate env db uid up).1.metas.find? (fun m => decide (m.file = db.nextId)) =
        some { om with file := db.nextId } ∧
      (((fileCreate env db uid up).1.files.find? (fun f => decide (f.id = db.nextId))).map
        (fun f => f.ai_processed)) = some true) ∧
    (∀ env2, fileCreate env2 db uid up = fileCreate env db uid up) := by
  have hInv := inv_of_reachable hre
  have hmem := List.mem_of_find?_eq_some hfind
  have hpred := List.find?_some hfind
  rw [decide_eq_true_eq] at hpred
  obtain ⟨hhash, huser, hcanon⟩ := hpred
  have hid := hInv.idsLt existing hmem
  have hsize : existing.size = up.content.length := by
    rw [hInv.sizeEq existing hmem, hhash]
    rfl
  have h1 := fileCreate_dup_eq env db uid up existing hfind hid hInv.idsLt
  refine ⟨?_, ?_, ?_, ?_, ?_⟩
  · rw [fileCreate_dup env db uid up existing hfind]
    cases db.metas.find? (fun m => decide (m.file = existing.id)) <;> rfl
  · rw [h1]
    cases hm : db.metas.find? (fun m => decide (m.file = existing.id)) with
    | some om =>
        rw [updateStatsRow_files]
        refine ⟨dupRef db uid up existing true, List.mem_cons_self _ _, rfl, rfl, rfl,
          hsize.symm, rfl⟩
    | none =>
        rw [updateStatsRow_files]
        refine ⟨dupRef db uid up existing false, List.mem_cons_self _ _, rfl, rfl, rfl,
          hsize.symm, rfl⟩
  · rw [h1]
    cases hm : db.metas.find? (fun m => decide (m.file = existing.id)) with
    | some om =>
        rw [updateStatsRow_files]
        show (((dupRef db uid up existing true :: db.files.map (bumpRef existing.id)).find?
          (fun f => decide (f.id = existing.id))).map (fun f => f.reference_count)) = _
        rw [List.find?_cons_of_neg _ (by
          simp only [decide_eq_true_eq]
          show ¬ db.nextId = existing.id
          omega)]
        rw [find?_id_map_bump, find?_id_self db.files hInv.idsNodup existing hmem]
        show some ((bumpRef existing.id existing).reference_count) = _
        rw [bumpRef_rc, if_pos rfl]
    | none =>
        rw [updateStatsRow_files]
        show (((dupRef db uid up existing false :: db.files.map (bumpRef existing.id)).find?
          (fun f => decide (f.id = existing.id))).map (fun f => f.reference_count)) = _
        rw [List.find?_cons_of_neg _ (by
          simp only [decide_eq_true_eq]
          show ¬ db.nextId = existing.id
          omega)]
        rw [find?_id_map_bump, find?_id_self db.files hInv.idsNodup existing hmem]
        show some ((bumpRef existing.id existing).reference_count) = _
        rw [bumpRef_rc, if_pos rfl]
  · intro om hom
    have homemb : om.embedding = none :=
      hInv.metasEmbNone om (List.mem_of_find?_eq_some hom)
    rw [h1, hom]
    constructor
    · rw [updateStatsRow_metas]
      show List.find? (fun m => decide (m.file = db.nextId)) (_ :: db.metas) = _
      rw [List.find?_cons_of_pos _ (by simp)]
      have hrec :
          ({ file := db.nextId, summary := om.summary, category := om.category,
             subcategory := om.subcategory, tags := om.tags, entities := om.entities,
             key_info := om.key_info, embedding := none,
             confidence_score := om.confidence_score } : FileMetadata) =
          { om with file := db.nextId } := by
        rw [← homemb]
      rw [hrec]
    · rw [updateStatsRow_files]
      show (((dupRef db uid up existing true :: db.files.map (bumpRef existing.id)).find?
        (fun f => decide (f.id = db.nextId))).map (fun f => f.ai_processed)) = _
      rw [List.find?_cons_of_pos _ (by simp [dupRef])]
      rfl
  · intro env2
    rw [fileCreate_dup env db uid up existing hfind,
      fileCreate_dup env2 db uid up existing hfind]

/-! ## Claim C9: semantic search ranking -/

theorem filter_orderedInsert_of_neg {p : SearchResult → Bool} {a : SearchResult}
    (ha : p a = false) (l : List SearchResult) :
    (l.orderedInsert scoreGE a).filter p = l.filter p := by
  induction l with
  | nil => simp [List.orderedInsert, List.filter_cons, ha]
  | cons b t ih =>
      rw [List.orderedInsert]
      by_cases hr : scoreGE a b
      · rw [if_pos hr]
        simp [List.filter_cons, ha]
      · rw [if_neg hr]
        by_cases hp : p b = true
        · simp [List.filter_cons, hp, ih]
        · simp [List.filter_cons, hp, ih]

theorem filter_orderedInsert_of_pos {a : SearchResult} (s : ℚ)
    (ha : a.relevance_score = s) (l : List SearchResult)
    (hcomp : ∀ b : SearchResult, ¬ scoreGE a b → ¬ b.relevance_score = s) :
    (l.orderedInsert scoreGE a).filter (fun r => decide (r.relevance_score = s)) =
      a :: l.filter (fun r => decide (r.relevance_score = s)) := by
  induction l with
  | nil => simp [List.orderedInsert, List.filter_cons, ha]
  | cons b t ih =>
      rw [List.orderedInsert]
      by_cases hr : scoreGE a b
      · rw [if_pos hr]
        simp [List.filter_cons, ha]
      · rw [if_neg hr]
        have hbs : ¬ b.relevance_score = s := hcomp b hr
        simp [List.filter_cons, hbs, ih]

/-- Stability of the modelled sort: the results at any fixed score keep
their input order. -/
theorem filter_insertionSort_score (s : ℚ) (l : List SearchResult) :
    ((l.insertionSort scoreGE).filter (fun r => decide (r.relevance_score = s))) =
      l.filter (fun r => decide (r.relevance_score = s)) := by
  induction l with
  | nil => rfl
  | cons a t ih =>
      rw [List.insertionSort]
      by_cases ha : a.relevance_score = s
      · rw [filter_orderedInsert_of_pos s ha _ ?_]
        · rw [ih, List.filter_cons]
          simp [ha]
        · intro b hb hbs
          unfold scoreGE at hb
          exact hb (le_of_eq (by rw [ha, hbs]))
      · rw [filter_orderedInsert_of_neg (by simp [ha]) _]
        rw [ih, List.filter_cons]
        simp [ha]

/-- C9. For every query whose embedding is computed, `semantic_search`
returns the top (at most) 10 of the candidates carrying an embedding with
cosine similarity ≥ 0.3, sorted descending with ties kept in input order,
each result carrying the file identity, the score, and a reason string
embedding the score. -/
theorem C9_semantic_search_ranking (env : AIEnv) (query : String) (cands : List Candidate)
    (qe : List ℚ) (hq : compute_embedding env query = some qe) :
    (semantic_search env query cands =
      (((cands.filter (fun f => f.embedding.isSome)).filterMap (fun f =>
        if 3/10 ≤ env.cosine qe (f.embedding.getD []) then
          some { file_id := f.file_id,
                 relevance_score := env.cosine qe (f.embedding.getD []),
                 reason := "Semantic similarity: " ++
                   fmtScore (env.cosine qe (f.embedding.getD [])) }
        else none)).insertionSort scoreGE).take 10) ∧
    (semantic_search env query cands).length ≤ 10 ∧
    (semantic_search env query cands).Sorted scoreGE ∧
    (((cands.filter (fun f => f.embedding.isSome)).filterMap (fun f =>
        if 3/10 ≤ env.cosine qe (f.embedding.getD []) then
          some { file_id := f.file_id,
                 relevance_score := env.cosine qe (f.embedding.getD []),
                 reason := "Semantic similarity: " ++
                   fmtScore (env.cosine qe (f.embedding.getD [])) }
        else none)).insertionSort scoreGE).Perm
      ((cands.filter (fun f => f.embedding.isSome)).filterMap (fun f =>
        if 3/10 ≤ env.cosine qe (f.embedding.getD []) then
          some { file_id := f.file_id,
                 relevance_score := env.cosine qe (f.embedding.getD []),
                 reason := "Semantic similarity: " ++
                   fmtScore (env.cosine qe (f.embedding.getD [])) }
        else none)) ∧
    (∀ s : ℚ,
      ((((cands.filter (fun f => f.embedding.isSome)).filterMap (fun f =>
        if 3/10 ≤ env.cosine qe (f.embedding.getD []) then
          some { file_id := f.file_id,
                 relevance_score := env.cosine qe (f.embedding.getD []),
                 reason := "Semantic similarity: " ++
                   fmtScore (env.cosine qe (f.embedding.getD [])) }
        else none)).insertionSort scoreGE).filter
          (fun r => decide (r.relevance_score = s))) =
      ((cands.filter (fun f => f.embedding.isSome)).filterMap (fun f =>
        if 3/10 ≤ env.cosine qe (f.embedding.getD []) then
          some { file_id := f.file_id,
                 relevance_score := env.cosine qe (f.embedding.getD []),
                 reason := "Semantic similarity: " ++
                   fmtScore (env.cosine qe (f.embedding.getD [])) }
        else none)).filter (fun r => decide (r.relevance_score = s))) ∧
    (∀ r ∈ semantic_search env query cands, ∃ f ∈ cands, ∃ e, f.embedding = some e ∧
      r.file_id = f.file_id ∧ r.relevance_score = env.cosine qe e ∧
      3/10 ≤ r.relevance_score ∧
      r.reason = "Semantic similarity: " ++ fmtScore r.relevance_score) := by
  have hmodel : env.embedding_model.isNone = false := by
    cases hm : env.embedding_model with
    | none =>
        unfold compute_embedding at hq
        rw [hm] at hq
        exact Option.noConfusion hq
    | some enc => rfl
  have hmain : semantic_search env query cands =
      (((cands.filter (fun f => f.embedding.isSome)).filterMap (fun f =>
        if 3/10 ≤ env.cosine qe (f.embedding.getD []) then
          some { file_id := f.file_id,
                 relevance_score := env.cosine qe (f.embedding.getD []),
                 reason := "Semantic similarity: " ++
                   fmtScore (env.cosine qe (f.embedding.getD [])) }
        else none)).insertionSort scoreGE).take 10 := by
    unfold semantic_search
    by_cases hc : cands = []
    · rw [if_pos (Or.inl hc)]
      rw [hc]
      rfl
    · rw [if_neg (by simp [hc, hmodel])]
      rw [hq]
      simp only []
      by_cases hfwe : cands.filter (fun f => f.embedding.isSome) = []
      · rw [if_pos hfwe, hfwe]
        rfl
      · rw [if_neg hfwe]
  refine ⟨hmain, ?_, ?_, List.perm_insertionSort _ _, fun s => filter_insertionSort_score s _,
    ?_⟩
  · rw [hmain]
    exact List.length_take_le 10 _
  · rw [hmain]
    exact List.Pairwise.sublist (List.take_sublist _ _)
      (List.sorted_insertionSort scoreGE _)
  · intro r hr
    rw [hmain] at hr
    have hr2 := (List.mem_insertionSort scoreGE).mp ((List.take_sublist _ _).mem hr)
    obtain ⟨f, hfmem, hf⟩ := List.mem_filterMap.mp hr2
    obtain ⟨hfc, hfsome⟩ := List.mem_filter.mp hfmem
    obtain ⟨e, he⟩ := Option.isSome_iff_exists.mp hfsome
    by_cases hge : 3/10 ≤ env.cosine qe (f.embedding.getD [])
    · rw [if_pos hge] at hf
      injection hf with hf
      refine ⟨f, hfc, e, he, ?_, ?_, ?_, ?_⟩
      · rw [← hf]
      · rw [← hf]
        simp [he]
      · rw [← hf]
        simpa [he] using hge
      · rw [← hf]
    · rw [if_neg hge] at hf
      exact Option.noConfusion hf

theorem reachable_dbW : Reachable dbW := Reachable.create envNoAI "u1" upW Reachable.init

theorem C3_witness :
    Reachable dbW ∧
    dbW.files.filter (fun f => decide (f.user_id = "u1" ∧ f.file_hash = [1])) ≠ [] ∧
    (∃ c, dbW.files.filter (fun f => decide (f.user_id = "u1" ∧ f.file_hash = [1] ∧
        f.is_reference = false)) = [c] ∧
      (∀ f ∈ dbW.files, f.user_id = "u1" → f.file_hash = [1] → f.is_reference = true →
        f.original_file = some c.id) ∧
      c.reference_count = (dbW.files.filter (fun f => decide (f.user_id = "u1" ∧
        f.file_hash = [1] ∧ f.is_reference = true))).length) :=
  ⟨reachable_dbW, by decide,
    C3_dedup_invariant dbW reachable_dbW "u1" [1] (by decide)⟩

theorem C4_witness :
    Reachable DB.empty ∧
    DB.empty.files.find? (fun f => decide (f.file_hash = calculate_file_hash upW.content ∧
      f.user_id = "u1" ∧ f.is_reference = false)) = none ∧
    (((fileCreate envNoAI DB.empty "u1" upW).2 = .quotaExceeded ↔
      STORAGE_QUOTA_BYTES < (computeStats "u1" DB.empty.files).total_storage_used +
        upW.content.length) ∧
    ((fileCreate envNoAI DB.empty "u1" upW).2 = .quotaExceeded →
      (fileCreate envNoAI DB.empty "u1" upW).1.files = DB.empty.files ∧
      (fileCreate envNoAI DB.empty "u1" upW).1.metas = DB.empty.metas ∧
      (fileCreate envNoAI DB.empty "u1" upW).1.blobs = DB.empty.blobs ∧
      ((fileCreate envNoAI DB.empty "u1" upW).1.stats.find?
          (fun s => decide (s.user_id = "u1"))).getD ⟨"u1", 0, 0, 0⟩ =
        (DB.empty.stats.find? (fun s => decide (s.user_id = "u1"))).getD ⟨"u1", 0, 0, 0⟩)) :=
  ⟨Reachable.init, rfl, C4_quota_enforced envNoAI DB.empty "u1" upW Reachable.init rfl⟩

theorem C5_witness :
    Reachable dbW ∧
    dbW.files.find? (fun f => decide (f.id = 0)) = some instW ∧
    instW.user_id = "u1" ∧
    instW.is_reference = false ∧
    ((0 < instW.reference_count →
      fileDestroy dbW "u1" 0 = (dbW, .referencedError)) ∧
    (instW.reference_count = 0 →
      (fileDestroy dbW "u1" 0).2 = .deleted true ∧
      (fileDestroy dbW "u1" 0).1.blobs = dbW.blobs.erase instW.path ∧
      instW.path ∈ dbW.blobs ∧
      ¬ instW.path ∈ (fileDestroy dbW "u1" 0).1.blobs ∧
      (∀ f ∈ (fileDestroy dbW "u1" 0).1.files, ¬ f.id = 0))) :=
  ⟨reachable_dbW, by decide, by decide, by decide,
    C5_delete_canonical dbW "u1" 0 instW reachable_dbW (by decide) (by decide) (by decide)⟩

theorem C6_witness :
    Reachable dbW ∧
    dbW.files.find? (fun f => decide (f.file_hash = calculate_file_hash upW.content ∧
      f.user_id = "u1" ∧ f.is_reference = false)) = some instW ∧
    ((fileCreate envNoAI dbW "u1" upW).2 = .created dbW.nextId ∧
    (∃ nf ∈ (fileCreate envNoAI dbW "u1" upW).1.files, nf.id = dbW.nextId ∧
      nf.is_reference = true ∧ nf.original_file = some instW.id ∧
      nf.size = instW.size ∧ nf.size = upW.content.length) ∧
    (((fileCreate envNoAI dbW "u1" upW).1.files.find?
        (fun f => decide (f.id = instW.id))).map (fun f => f.reference_count)) =
      some (instW.reference_count + 1) ∧
    (∀ om, dbW.metas.find? (fun m => decide (m.file = instW.id)) = some om →
      (fileCreate envNoAI dbW "u1" upW).1.metas.find?
          (fun m => decide (m.file = dbW.nextId)) = some { om with file := dbW.nextId } ∧
      (((fileCreate envNoAI dbW "u1" upW).1.files.find?
          (fun f => decide (f.id = dbW.nextId))).map (fun f => f.ai_processed)) =
        some true) ∧
    (∀ env2, fileCreate env2 dbW "u1" upW = fileCreate envNoAI dbW "u1" upW)) :=
  ⟨reachable_dbW, by decide,
    C6_duplicate_reference envNoAI dbW "u1" upW instW reachable_dbW (by decide)⟩

theorem C7_witness :
    envErr.extract ([5] : List Nat) "text/plain" = some "txt" ∧
    ¬ ("txt" : String) = "" ∧
    envErr.claude "txt" "f" "text/plain" = .err "boom" ∧
    DB.empty.files.find? (fun f => decide (f.file_hash =
      calculate_file_hash ([5] : List Nat) ∧ f.user_id = "u1" ∧
      f.is_reference = false)) = none ∧
    ¬ STORAGE_QUOTA_BYTES < (getOrCreateStats DB.empty "u1").1.total_storage_used +
      ([5] : List Nat).length ∧
    ((fileCreate envErr DB.empty "u1" ⟨[5], "f", "text/plain"⟩).2 =
        .created DB.empty.nextId ∧
      ((fileCreate envErr DB.empty "u1" ⟨[5], "f", "text/plain"⟩).1.metas.find?
          (fun m => decide (m.file = DB.empty.nextId))).map
        (fun m => (m.category, m.confidence_score)) = some ("Other", 0) ∧
      ((fileCreate envErr DB.empty "u1" ⟨[5], "f", "text/plain"⟩).1.files.find?
          (fun f => decide (f.id = DB.empty.nextId))).map
        (fun f => (f.ai_processed, f.ai_processing_failed)) = some (true, false)) :=
  ⟨rfl, by decide, rfl, rfl, by decide,
    C7_analysis_failure_still_processed envErr DB.empty "u1" ⟨[5], "f", "text/plain"⟩
      "txt" "boom" rfl (by decide) rfl rfl (by decide)⟩

theorem C9_witness :
    compute_embedding envSearch "q" = some [1] ∧
    ((semantic_search envSearch "q" [⟨"f1", "n", "c", "s", [], some [1]⟩] =
      ((([(⟨"f1", "n", "c", "s", [], some [1]⟩ : Candidate)].filter
          (fun f => f.embedding.isSome)).filterMap (fun f =>
        if 3/10 ≤ envSearch.cosine [1] (f.embedding.getD []) then
          some { file_id := f.file_id,
                 relevance_score := envSearch.cosine [1] (f.embedding.getD []),
                 reason := "Semantic similarity: " ++
                   fmtScore (envSearch.cosine [1] (f.embedding.getD [])) }
        else none)).insertionSort scoreGE).take 10) ∧
    (semantic_search envSearch "q" [⟨"f1", "n", "c", "s", [], some [1]⟩]).length ≤ 10 ∧
    (semantic_search envSearch "q" [⟨"f1", "n", "c", "s", [], some [1]⟩]).Sorted scoreGE ∧
    ((([(⟨"f1", "n", "c", "s", [], some [1]⟩ : Candidate)].filter
          (fun f => f.embedding.isSome)).filterMap (fun f =>
        if 3/10 ≤ envSearch.cosine [1] (f.embedding.getD []) then
          some { file_id := f.file_id,
                 relevance_score := envSearch.cosine [1] (f.embedding.getD []),
                 reason := "Semantic similarity: " ++
                   fmtScore (envSearch.cosine [1] (f.embedding.getD [])) }
        else none)).insertionSort scoreGE).Perm
      (([(⟨"f1", "n", "c", "s", [], some [1]⟩ : Candidate)].filter
          (fun f => f.embedding.isSome)).filterMap (fun f =>
        if 3/10 ≤ envSearch.cosine [1] (f.embedding.getD []) then
          some { file_id := f.file_id,
                 relevance_score := envSearch.cosine [1] (f.embedding.getD []),
                 reason := "Semantic similarity: " ++
                   fmtScore (envSearch.cosine [1] (f.embedding.getD [])) }
        else none)) ∧
    (∀ s : ℚ,
      (((([(⟨"f1", "n", "c", "s", [], some [1]⟩ : Candidate)].filter
          (fun f => f.embedding.isSome)).filterMap (fun f =>
        if 3/10 ≤ envSearch.cosine [1] (f.embedding.getD []) then
          some { file_id := f.file_id,
                 relevance_score := envSearch.cosine [1] (f.embedding.getD []),
                 reason := "Semantic similarity: " ++
                   fmtScore (envSearch.cosine [1] (f.embedding.getD [])) }
        else none)).insertionSort scoreGE).filter
          (fun r => decide (r.relevance_score = s))) =
      (([(⟨"f1", "n", "c", "s", [], some [1]⟩ : Candidate)].filter
          (fun f => f.embedding.isSome)).filterMap (fun f =>
        if 3/10 ≤ envSearch.cosine [1] (f.embedding.getD []) then
          some { file_id := f.file_id,
                 relevance_score := envSearch.cosine [1] (f.embedding.getD []),
                 reason := "Semantic similarity: " ++
                   fmtScore (envSearch.cosine [1] (f.embedding.getD [])) }
        else none)).filter (fun r => decide (r.relevance_score = s))) ∧
    (∀ r ∈ semantic_search envSearch "q" [⟨"f1", "n", "c", "s", [], some [1]⟩],
      ∃ f ∈ [(⟨"f1", "n", "c", "s", [], some [1]⟩ : Candidate)], ∃ e,
        f.embedding = some e ∧ r.file_id = f.file_id ∧
        r.relevance_score = envSearch.cosine [1] e ∧ 3/10 ≤ r.relevance_score ∧
        r.reason = "Semantic similarity: " ++ fmtScore r.relevance_score)) :=
  ⟨rfl, C9_semantic_search_ranking envSearch "q" [⟨"f1", "n", "c", "s", [], some [1]⟩] [1] rfl⟩

end FileVault
